import Mathlib

/-!
Verification development for the multi-language source scanner implemented in
codebase_summary/update_project_summary.py (class CodebaseAnalyzer).

The Python code is shallowly embedded: every definition below mirrors a piece
of the source.  File contents are modelled as the decoded text (a String, or
none when the open call raises), directory trees as an inductive type whose
traversal mirrors os.walk with the in-place dirs pruning of
_single_pass_scan, and Python exceptions as an Except layer (the only
exception reachable from the scan loop is the AttributeError raised when
re.findall returns tuples, see procMatches below).  Regular-expression
matching is embedded by a backtracking engine (reMatch/reFindall) that
follows the semantics of re.findall: leftmost scanning, greedy quantifiers,
non-overlapping continuation after each non-empty match, and group capture
(a pattern with zero groups yields whole-match strings, one group yields the
captured string, two or more yield tuples).  Numeric results that Python
computes on floats are modelled as exact rationals, with round2 mirroring
the round-half-even semantics of round(x, 2).
-/

set_option maxRecDepth 100000

deriving instance DecidableEq for Except

namespace Arkival

/-! ## Basic string helpers -/

/-- Does the character list s start with the list p (Python startswith on the tail scan). -/
def startsWithL : List Char → List Char → Bool
  | [], _ => true
  | _ :: _, [] => false
  | a :: ps, b :: ss => a == b && startsWithL ps ss

/-- Python substring test: pat in s, over character lists. -/
def hasSubL (pat : List Char) : List Char → Bool
  | [] => startsWithL pat []
  | c :: t => startsWithL pat (c :: t) || hasSubL pat t

/-- Python substring test pat in s over strings. -/
def strHasSub (s pat : String) : Bool := hasSubL pat.data s.data

/-- Python startswith over strings. -/
def strStartsWith (s pat : String) : Bool := startsWithL pat.data s.data

/-- str.split on a one-character separator, keeping empty pieces. -/
def splitOnCharL (sep : Char) : List Char → List (List Char)
  | [] => [[]]
  | c :: t =>
    if c == sep then [] :: splitOnCharL sep t
    else
      match splitOnCharL sep t with
      | [] => [[c]]
      | h :: r => (c :: h) :: r

/-- content.split over newline, as a list of line strings. -/
def splitLines (c : String) : List String :=
  (splitOnCharL '\n' c.data).map String.mk

/-- str.replace of every non-overlapping occurrence, left to right.  The
fuel bounds depth; every step consumes at least one character, so the
character count plus one is always enough. -/
def replaceGo (pat rep : List Char) : Nat → List Char → List Char
  | 0, s => s
  | _ + 1, [] => []
  | f + 1, c :: t =>
    if pat != [] && startsWithL pat (c :: t) then
      rep ++ replaceGo pat rep f ((c :: t).drop pat.length)
    else c :: replaceGo pat rep f t

/-- str.replace over strings. -/
def strReplace (s pat rep : String) : String :=
  String.mk (replaceGo pat.data rep.data (s.data.length + 1) s.data)

/-- Index of the last occurrence of a character (Python rfind when present). -/
def lastIdxOf (c : Char) : List Char → Option Nat
  | [] => none
  | a :: rest =>
    match lastIdxOf c rest with
    | some j => some (j + 1)
    | none => if a == c then some 0 else none

/-- pathlib suffix of a file name: text from the last dot, when that dot is
neither the first nor the last character; empty otherwise. -/
def pathSuffix (name : String) : String :=
  match lastIdxOf '.' name.data with
  | none => ""
  | some i =>
    if 0 < i ∧ i < name.data.length - 1 then String.mk (name.data.drop i) else ""

/-- ASCII lowering of a string (str.lower restricted to the ASCII names the scanner meets). -/
def toLowerStr (s : String) : String := String.mk (s.data.map Char.toLower)

/-- str(Path(...)) of a relative segment list: "." for the empty path, else slash-joined. -/
def joinPath (segs : List String) : String :=
  if segs.isEmpty then "." else String.intercalate "/" segs

/-! ## fnmatch glob matching (fnmatch.fnmatch on POSIX) -/

/-- Membership of a character in a glob bracket class body, with dash ranges. -/
def classRangeMatch : List Char → Char → Bool
  | a :: '-' :: b :: rest, c =>
    if rest.isEmpty ∧ b == ']' then (a == c || '-' == c)
    else ((a ≤ c && c ≤ b) || classRangeMatch rest c)
  | a :: rest, c => a == c || classRangeMatch rest c
  | [], _ => false

/-- Scan for the closing bracket of a glob class, returning body and remainder. -/
def findClose : List Char → Option (List Char × List Char)
  | [] => none
  | ']' :: rest => some ([], rest)
  | c :: rest =>
    match findClose rest with
    | some (b, r) => some (c :: b, r)
    | none => none

/-- Parse a glob bracket class after the opening bracket: negation flag,
member body, and the remainder of the pattern.  A bracket immediately after
the opening (or after the negation mark) is a literal member, as in fnmatch. -/
def parseCls (l : List Char) : Option (Bool × List Char × List Char) :=
  let neg := match l with | '!' :: _ => true | _ => false
  let l1 := match l with | '!' :: t => t | _ => l
  match l1 with
  | ']' :: t2 =>
    match findClose t2 with
    | some (b, r) => some (neg, ']' :: b, r)
    | none => none
  | _ =>
    match findClose l1 with
    | some (b, r) => some (neg, b, r)
    | none => none

/-- Fuel-indexed whole-string glob match: star, question mark, bracket
classes (an unterminated opening bracket is a literal, as in fnmatch). -/
def globM : Nat → List Char → List Char → Bool
  | 0, _, _ => false
  | _ + 1, [], s => s.isEmpty
  | f + 1, '*' :: ps, s =>
    globM f ps s ||
      (match s with
       | [] => false
       | _ :: t => globM f ('*' :: ps) t)
  | f + 1, '?' :: ps, s =>
    (match s with
     | [] => false
     | _ :: t => globM f ps t)
  | f + 1, '[' :: ps, s =>
    (match parseCls ps with
     | some (neg, mem, rest) =>
       (match s with
        | [] => false
        | c :: t => (neg != classRangeMatch mem c) && globM f rest t)
     | none =>
       (match s with
        | [] => false
        | c :: t => (c == '[') && globM f ps t))
  | f + 1, c :: ps, s =>
    (match s with
     | [] => false
     | d :: t => (c == d) && globM f ps t)

/-- fnmatch.fnmatch(name, pat) on a case-sensitive filesystem. -/
def fnmatchB (name pat : String) : Bool :=
  globM (pat.length + name.length + 1) pat.data name.data

/-! ## Ignore rules (_load_ignore_patterns defaults and _should_ignore_path) -/

/-- Built-in default ignore patterns of _load_ignore_patterns (standalone mode). -/
def defaultIgnores : List String :=
  [".git", "__pycache__", "node_modules", ".cache", ".vscode", ".idea",
   ".DS_Store", "vendor", "build", "dist", "target", "bin", "obj", "out",
   ".next", ".nuxt", "coverage", "test-results", ".pytest_cache", ".claude",
   ".cursor", ".aider", ".codeium", ".copilot"]

/-- _should_ignore_path.  rootParts are the path components of the absolute
project root (Path.parts includes them for every candidate path), rel the
path components relative to the root.  First loop: any absolute component
equal to a pattern.  Second loop: glob patterns are matched with fnmatch
against the relative path string, slash-free patterns against its components,
and slash-bearing patterns as substrings. -/
def shouldIgnorePath (pats rootParts rel : List String) : Bool :=
  let parts := rootParts ++ rel
  if parts.any (fun part => pats.contains part) then true
  else
    let pathStr := joinPath rel
    pats.any (fun pat =>
      if pat.data.contains '*' || pat.data.contains '?' then fnmatchB pathStr pat
      else if !(pat.data.contains '/') then
        ((splitOnCharL '/' pathStr.data).map String.mk).contains pat
      else strHasSub pathStr pat)

/-! ## Language dispatch tables (_analyze_code_file) -/

/-- lang_map of _analyze_code_file: extension to language identifier. -/
def langMap : List (String × String) :=
  [(".py", "python"), (".js", "javascript"), (".jsx", "javascript"),
   (".ts", "typescript"), (".tsx", "typescript"), (".java", "java"),
   (".go", "go"), (".rs", "rust"), (".c", "c"), (".cpp", "cpp"),
   (".cc", "cpp"), (".cxx", "cpp"), (".php", "php"), (".rb", "ruby"),
   (".swift", "swift"), (".kt", "kotlin"), (".dart", "dart"),
   (".sql", "sql"), (".css", "css"), (".scss", "css"), (".sass", "css"),
   (".vue", "vue"), (".lua", "lua"), (".scala", "scala"),
   (".clj", "clojure"), (".cljs", "clojure"), (".r", "r"), (".m", "objc"),
   (".mm", "objc"), (".cs", "csharp"), (".sh", "shell"), (".bash", "shell"),
   (".zsh", "shell"), (".ps1", "powershell")]

/-- lang_map.get(ext, javascript fallback). -/
def langOfExt (ext : String) : String := (langMap.lookup ext).getD "javascript"

/-- code_extensions set of _single_pass_scan. -/
def codeExtensions : List String :=
  [".py", ".js", ".jsx", ".ts", ".tsx", ".java", ".go", ".rs", ".c", ".cpp",
   ".cc", ".cxx", ".php", ".rb", ".swift", ".kt", ".dart", ".sql", ".css",
   ".scss", ".sass", ".vue", ".lua", ".scala", ".clj", ".cljs", ".r", ".m",
   ".mm", ".cs", ".sh", ".bash", ".zsh", ".ps1"]

/-! ## Regular expression engine (re.findall semantics for the pattern table) -/

/-- Result of one re.findall element: a string (zero or one capture group)
or a tuple of group captures (two or more groups). -/
inductive MatchItem where
  | one (s : String)
  | tup (gs : List String)
deriving Repr, DecidableEq

/-- Regex abstract syntax: character predicates, sequencing, ordered
alternation, greedy star, and numbered capture groups. -/
inductive RE where
  | eps
  | tok (p : Char → Bool)
  | seq (a b : RE)
  | alt (a b : RE)
  | star (a : RE)
  | group (n : Nat) (a : RE)

/-- Structural size of a regex, used to bound backtracking depth. -/
def reSize : RE → Nat
  | .eps => 1
  | .tok _ => 1
  | .seq a b => 1 + reSize a + reSize b
  | .alt a b => 1 + reSize a + reSize b
  | .star a => 2 + reSize a
  | .group _ a => 1 + reSize a

/-- Highest capture group number occurring in a regex. -/
def numGroups : RE → Nat
  | .eps => 0
  | .tok _ => 0
  | .seq a b => max (numGroups a) (numGroups b)
  | .alt a b => max (numGroups a) (numGroups b)
  | .star a => numGroups a
  | .group n a => max n (numGroups a)

/-- Backtracking matcher in continuation style.  Alternatives are tried left
to right, stars greedily (one more iteration first), and a capture group
stores the consumed text under its number, overwriting earlier captures of
the same group.  The fuel bounds call depth and is chosen large enough by
the callers that it never cuts a search short on the inputs used. -/
def reMatch : Nat → RE → List Char → List (Nat × String) →
    (List Char → List (Nat × String) → Option (List Char × List (Nat × String))) →
    Option (List Char × List (Nat × String))
  | 0, _, _, _, _ => none
  | f + 1, re, s, caps, k =>
    match re with
    | .eps => k s caps
    | .tok p =>
      match s with
      | [] => none
      | c :: t => if p c then k t caps else none
    | .seq a b => reMatch f a s caps (fun s2 c2 => reMatch f b s2 c2 k)
    | .alt a b =>
      match reMatch f a s caps k with
      | some r => some r
      | none => reMatch f b s caps k
    | .star a =>
      match reMatch f a s caps (fun s2 c2 =>
          if s2.length < s.length then reMatch f (.star a) s2 c2 k else none) with
      | some r => some r
      | none => k s caps
    | .group n a =>
      reMatch f a s caps (fun s2 c2 =>
        k s2 ((n, String.mk (s.take (s.length - s2.length))) ::
          c2.filter (fun q => q.1 ≠ n)))

/-- Try to match re at the head of s, returning consumed length and captures. -/
def tryAt (re : RE) (s : List Char) : Option (Nat × List (Nat × String)) :=
  match reMatch ((reSize re + 4) * (s.length + 4)) re s []
      (fun rest caps => some (rest, caps)) with
  | some (rest, caps) => some (s.length - rest.length, caps)
  | none => none

/-- Retrieve a capture by group number, empty when the group did not take part. -/
def capGet (caps : List (Nat × String)) (n : Nat) : String := (caps.lookup n).getD ""

/-- Shape one findall element from the match at the current position. -/
def mkItem (g : Nat) (s : List Char) (len : Nat) (caps : List (Nat × String)) : MatchItem :=
  if g = 0 then .one (String.mk (s.take len))
  else if g = 1 then .one (capGet caps 1)
  else .tup ((List.range' 1 g).map (capGet caps))

/-- Position scan of re.findall: try each start position left to right,
continue after the end of a non-empty match, advance one character after an
empty match or a failure. -/
def findallGo (re : RE) (g : Nat) : Nat → List Char → List MatchItem
  | 0, _ => []
  | f + 1, s =>
    match tryAt re s with
    | some (len, caps) =>
      let item := mkItem g s len caps
      if len = 0 then
        item ::
          (match s with
           | [] => []
           | _ :: t => findallGo re g f t)
      else item :: findallGo re g f (s.drop len)
    | none =>
      match s with
      | [] => []
      | _ :: t => findallGo re g f t

/-- re.findall(re, line). -/
def reFindall (re : RE) (line : String) : List MatchItem :=
  findallGo re (numGroups re) (line.data.length + 1) line.data

/-- A matcher is the findall behavior of one table pattern on one line. -/
abbrev Matcher := String → List MatchItem

/-- Matcher of a regex. -/
def matcherOf (re : RE) : Matcher := fun line => reFindall re line

/-! ## Transliterated patterns from function_patterns (python and cpp rows) -/

/-- Whitespace class backslash-s. -/
def sCls : RE :=
  RE.tok (fun c => c == ' ' || c == '\t' || c == '\n' || c == '\r' ||
    c == '\x0b' || c == '\x0c')

/-- Word class backslash-w (ASCII part). -/
def wCls : RE := RE.tok (fun c => c.isAlphanum || c == '_')

/-- Class of lowercase letters and underscore. -/
def lowerUCls : RE := RE.tok (fun c => c.isLower || c == '_')

/-- Class of lowercase letters, digits and underscore. -/
def lowerDigUCls : RE := RE.tok (fun c => c.isLower || c.isDigit || c == '_')

/-- Uppercase letter class. -/
def upperCls : RE := RE.tok (fun c => c.isUpper)

/-- Literal string regex. -/
def litStr (s : String) : RE :=
  s.data.foldr (fun c acc => RE.seq (RE.tok (fun d => d == c)) acc) RE.eps

/-- One or more. -/
def rePlus (a : RE) : RE := RE.seq a (RE.star a)

/-- Zero or one, preferring one. -/
def reOpt (a : RE) : RE := RE.alt a RE.eps

/-- Sequencing of a pattern list. -/
def reSeqL (l : List RE) : RE := l.foldr RE.seq RE.eps

/-- Python row, first pattern: def, spaces, lowercase identifier group, optional spaces, open paren. -/
def pyDefRE : RE :=
  reSeqL [litStr "def", rePlus sCls,
    RE.group 1 (RE.seq lowerUCls (RE.star lowerDigUCls)),
    RE.star sCls, RE.tok (fun c => c == '(')]

/-- Python row, second pattern: async def variant. -/
def pyAsyncDefRE : RE :=
  reSeqL [litStr "async", rePlus sCls, litStr "def", rePlus sCls,
    RE.group 1 (RE.seq lowerUCls (RE.star lowerDigUCls)),
    RE.star sCls, RE.tok (fun c => c == '(')]

/-- Python row, third pattern: class name followed by colon or open paren. -/
def pyClassRE : RE :=
  reSeqL [litStr "class", rePlus sCls,
    RE.group 1 (RE.seq upperCls (RE.star wCls)),
    RE.star sCls, RE.tok (fun c => c == ':' || c == '(')]

/-- Matchers for the python row of function_patterns. -/
def pythonPatterns : List Matcher :=
  [matcherOf pyDefRE, matcherOf pyAsyncDefRE, matcherOf pyClassRE]

/-- Cpp row, first pattern: optional virtual, static, inline, word-space
prefixes, lowercase identifier group, parenthesized arguments, open brace. -/
def cppFnRE : RE :=
  reSeqL [reOpt (RE.seq (litStr "virtual") (rePlus sCls)),
    reOpt (RE.seq (litStr "static") (rePlus sCls)),
    reOpt (RE.seq (litStr "inline") (rePlus sCls)),
    RE.star (RE.seq (rePlus wCls) (rePlus sCls)),
    RE.group 1 (RE.seq lowerUCls (RE.star lowerDigUCls)),
    RE.star sCls, RE.tok (fun c => c == '('),
    RE.star (RE.tok (fun c => !(c == ')'))), RE.tok (fun c => c == ')'),
    RE.star sCls, RE.tok (fun c => c == '\x7b')]

/-- Cpp row, second pattern: qualified method, with two capture groups, so
its findall results are tuples. -/
def cppQualRE : RE :=
  reSeqL [RE.star (RE.seq (rePlus wCls) (rePlus sCls)),
    RE.group 1 (RE.seq upperCls (RE.star wCls)),
    RE.star sCls, litStr "::", RE.star sCls,
    RE.group 2 (RE.seq lowerUCls (RE.star lowerDigUCls)),
    RE.star sCls, RE.tok (fun c => c == '(')]

/-- Cpp row, third pattern: class declaration. -/
def cppClassRE : RE :=
  reSeqL [litStr "class", rePlus sCls, RE.group 1 (RE.seq upperCls (RE.star wCls))]

/-- Cpp row, fourth pattern: template class declaration. -/
def cppTemplateRE : RE :=
  reSeqL [litStr "template", RE.star (RE.tok (fun c => !(c == '\n'))),
    litStr "class", rePlus sCls, RE.group 1 (RE.seq upperCls (RE.star wCls))]

/-- Matchers for the cpp row of function_patterns. -/
def cppPatterns : List Matcher :=
  [matcherOf cppFnRE, matcherOf cppQualRE, matcherOf cppClassRE, matcherOf cppTemplateRE]

/-- The pattern catalog used in the concrete theorems below: the rows of
function_patterns that those theorems exercise.  The general theorems
quantify over an arbitrary catalog, so they cover the full table. -/
def theCatalog : List (String × List Matcher) :=
  [("python", pythonPatterns), ("cpp", cppPatterns)]

/-- function_patterns.get(language, javascript row fallback). -/
def catalogGet (cat : List (String × List Matcher)) (lang : String) : List Matcher :=
  ((cat.lookup lang).getD ((cat.lookup "javascript").getD []))

/-! ## Breadcrumb detection and per-file analysis (_analyze_code_file) -/

/-- The breadcrumb marker literal searched for in nearby lines. -/
def markerStr : String := "@codebase-summary:"

/-- Does a line contain the breadcrumb marker. -/
def lineHasMarker (l : String) : Bool := strHasSub l markerStr

/-- The window of line indices range(max(0, i - 5), min(len, i + 3)) inspected
for a declaration matched on line i. -/
def windowIdx (len i : Nat) : List Nat :=
  List.range' (i - 5) (min len (i + 3) - (i - 5))

/-- Breadcrumb check of _analyze_code_file: some line of the window carries the marker. -/
def hasBreadcrumb (lines : List String) (i : Nat) : Bool :=
  (windowIdx lines.length i).any (fun j => lineHasMarker (lines.getD j ""))

/-- Python exceptions that can escape the analysis loop.  The only reachable
one is the AttributeError raised by match.startswith when re.findall
returned tuples (a pattern with two or more capture groups). -/
inductive PyErr where
  | attributeError
deriving Repr, DecidableEq

/-- Accumulator of the analysis loop: the functions, documented_functions
and missing_breadcrumbs lists of _analyze_code_file. -/
structure FnAcc where
  functions : List String
  documented : List String
  missing : List String
deriving Repr, DecidableEq

/-- Inner loop over the findall results of one pattern on line i.  A string
match is recorded when non-empty and not starting with an underscore, and
classified by the breadcrumb window; a tuple match evaluates truthy when
non-empty and then raises AttributeError on startswith. -/
def procMatches (lines : List String) (i : Nat) :
    List MatchItem → FnAcc → Except PyErr FnAcc
  | [], st => .ok st
  | m :: rest, st =>
    match m with
    | .one s =>
      if s != "" && !(strStartsWith s "_") then
        if hasBreadcrumb lines i then
          procMatches lines i rest
            { st with functions := st.functions ++ [s],
                      documented := st.documented ++ [s] }
        else
          procMatches lines i rest
            { st with functions := st.functions ++ [s],
                      missing := st.missing ++ [s] }
      else procMatches lines i rest st
    | .tup gs =>
      if gs.isEmpty then procMatches lines i rest st
      else .error .attributeError

/-- Loop over the patterns of the selected language row for one line. -/
def runPats (lines : List String) (i : Nat) (line : String) :
    List Matcher → FnAcc → Except PyErr FnAcc
  | [], st => .ok st
  | p :: rest, st =>
    match procMatches lines i (p line) st with
    | .error e => .error e
    | .ok st2 => runPats lines i line rest st2

/-- Loop over the enumerated lines of the file. -/
def runLines (patterns : List Matcher) (lines : List String) :
    List (Nat × String) → FnAcc → Except PyErr FnAcc
  | [], st => .ok st
  | (i, line) :: rest, st =>
    match runPats lines i line patterns st with
    | .error e => .error e
    | .ok st2 => runLines patterns lines rest st2

/-- The full analysis loop of _analyze_code_file over the split lines. -/
def analyzeAllLines (patterns : List Matcher) (lines : List String) :
    Except PyErr FnAcc :=
  runLines patterns lines lines.enum ⟨[], [], []⟩

/-- Byte length of the joined file content whose split lines are given:
the sum of the line lengths plus one separator per line break. -/
def fileSizeBytes (lines : List String) : Nat :=
  (lines.map String.length).sum + (lines.length - 1)

/-- The per-file record returned by _analyze_code_file.  The early return
after a failed open lacks the language and lines_of_code keys (modelled as
none) and stores the full path in the file field; the normal return stores
the path relative to the project root and an emptied functions list. -/
structure FileRecord where
  file : String
  language : Option String
  function_count : Nat
  documented_count : Nat
  functions : List String
  missing_breadcrumbs : List String
  lines_of_code : Option Nat
deriving Repr, DecidableEq

/-- _analyze_code_file.  name is the file name (final path component),
relStr the path relative to the project root, fullPath the absolute path,
and content the decoded text, or none when the open call raised. -/
def analyzeCodeFile (cat : List (String × List Matcher))
    (name relStr fullPath : String) (content : Option String) :
    Except PyErr FileRecord :=
  match content with
  | none =>
    .ok { file := fullPath, language := none, function_count := 0,
          documented_count := 0, functions := [], missing_breadcrumbs := [],
          lines_of_code := none }
  | some c =>
    let ext := toLowerStr (pathSuffix name)
    let patterns := catalogGet cat (langOfExt ext)
    let lines := splitLines c
    match analyzeAllLines patterns lines with
    | .error e => .error e
    | .ok fa =>
      .ok { file := relStr, language := some ext,
            function_count := fa.functions.length,
            documented_count := fa.documented.length, functions := [],
            missing_breadcrumbs := fa.missing,
            lines_of_code := some lines.length }

/-! ## Tree scan (_single_pass_scan) -/

/-- A directory tree: files carry their decoded content (none when opening
the file raises), directories their children in scandir order. -/
inductive FSTree where
  | file (name : String) (content : Option String)
  | dir (name : String) (children : List FSTree)
deriving Repr

mutual

/-- Node count of a tree, used as traversal fuel. -/
def tsize : FSTree → Nat
  | .file _ _ => 1
  | .dir _ cs => 1 + tsizeL cs

/-- Node count of a forest. -/
def tsizeL : List FSTree → Nat
  | [] => 0
  | t :: rest => tsize t + tsizeL rest

end

/-- Value of one language_breakdown entry. -/
structure LangStat where
  files : Nat
  functions : Nat
deriving Repr, DecidableEq

/-- The technology_indicators buckets. -/
structure TechInd where
  frontend : List String
  backend : List String
  ai_integration : List String
  database : List String
  deployment : List String
  documentation : List String
deriving Repr, DecidableEq

/-- The fields of the scan_data accumulator of _single_pass_scan that the
claims concern (entry point and route collection are independent side
channels and are omitted). -/
structure ScanData where
  total_files : Nat
  directories : List String
  file_types : List (String × Nat)
  key_files : List String
  tech : TechInd
  all_files : List String
  file_analysis : List FileRecord
  total_functions : Nat
  documented_functions : Nat
  missing_breadcrumbs : List (String × List String)
  language_breakdown : List (String × LangStat)
deriving Repr, DecidableEq

/-- The freshly initialised scan_data. -/
def initScanData : ScanData :=
  ⟨0, [], [], [], ⟨[], [], [], [], [], []⟩, [], [], 0, 0, [], []⟩

/-- defaultdict(int) increment preserving first-touch order. -/
def bumpHist : List (String × Nat) → String → List (String × Nat)
  | [], k => [(k, 1)]
  | (a, n) :: rest, k =>
    if a == k then (a, n + 1) :: rest else (a, n) :: bumpHist rest k

/-- defaultdict language_breakdown update preserving first-touch order. -/
def bumpLang : List (String × LangStat) → String → Nat → List (String × LangStat)
  | [], k, fc => [(k, ⟨1, fc⟩)]
  | (a, st) :: rest, k, fc =>
    if a == k then (a, ⟨st.files + 1, st.functions + fc⟩) :: rest
    else (a, st) :: bumpLang rest k fc

/-- key_patterns of _single_pass_scan. -/
def keyPatterns : List String :=
  ["LICENSE", "README*", ".gitignore", "package.json", "pyproject.toml", "Cargo.toml"]

/-- The ai_term substrings of the technology categorization. -/
def aiTerms : List String :=
  ["ai", "gpt", "claude", "gemini", "llm", "openai", "anthropic", "model"]

/-- The technology_indicators if/elif chain of _single_pass_scan. -/
def techCategorize (ext name relStr : String) (t : TechInd) : TechInd :=
  if [".py", ".java", ".go", ".rs"].contains ext then
    { t with backend := t.backend ++ [relStr] }
  else if [".js", ".jsx", ".ts", ".tsx", ".vue"].contains ext then
    { t with frontend := t.frontend ++ [relStr] }
  else if aiTerms.any (fun term => strHasSub (toLowerStr name) term) then
    { t with ai_integration := t.ai_integration ++ [relStr] }
  else if [".sql", ".db"].contains ext then
    { t with database := t.database ++ [relStr] }
  else if ["dockerfile", ".replit", "docker-compose.yml"].contains (toLowerStr name) then
    { t with deployment := t.deployment ++ [relStr] }
  else if [".md", ".txt"].contains ext || strHasSub (toLowerStr name) "doc" then
    { t with documentation := t.documentation ++ [relStr] }
  else t

/-- The structural counter updates of the file loop of _single_pass_scan:
total_files increment, file_types histogram, all_files append, key file
detection, and the technology indicator categorization. -/
def structUpdate (rel : List String) (name : String) (d : ScanData) : ScanData :=
  let ext := pathSuffix name
  let relStr := joinPath (rel ++ [name])
  let d1 := { d with total_files := d.total_files + 1,
                     file_types := bumpHist d.file_types ext,
                     all_files := d.all_files ++ [relStr] }
  let d2 :=
    if keyPatterns.any (fun p => strHasSub name (strReplace p "*" "")) then
      { d1 with key_files := d1.key_files ++ [relStr] }
    else d1
  { d2 with tech := techCategorize ext name relStr d2.tech }

/-- The fold of one analysis record into the code_analysis accumulators,
performed only when the record reports at least one declaration. -/
def foldAnalysis (a : FileRecord) (ext : String) (d : ScanData) : ScanData :=
  { d with
    file_analysis := d.file_analysis ++ [a],
    total_functions := d.total_functions + a.function_count,
    documented_functions := d.documented_functions + a.documented_count,
    language_breakdown := bumpLang d.language_breakdown ext a.function_count,
    missing_breadcrumbs :=
      if a.missing_breadcrumbs.isEmpty then d.missing_breadcrumbs
      else d.missing_breadcrumbs ++ [(a.file, a.missing_breadcrumbs)] }

/-- The body of the file loop of _single_pass_scan for one directory entry:
ignore check, structural counters, then code analysis and fold of its
counts when the extension is a code extension and at least one declaration
was found. -/
def processFile (cat : List (String × List Matcher)) (pats rootParts : List String)
    (rootStr : String) (rel : List String) (entry : String × Option String)
    (d : ScanData) : Except PyErr ScanData :=
  if shouldIgnorePath pats rootParts (rel ++ [entry.1]) then .ok d
  else
    if codeExtensions.contains (pathSuffix entry.1) then
      match analyzeCodeFile cat entry.1 (joinPath (rel ++ [entry.1]))
          (rootStr ++ "/" ++ joinPath (rel ++ [entry.1])) entry.2 with
      | .error e => .error e
      | .ok a =>
        if 0 < a.function_count then
          .ok (foldAnalysis a (pathSuffix entry.1) (structUpdate rel entry.1 d))
        else .ok (structUpdate rel entry.1 d)
    else .ok (structUpdate rel entry.1 d)

/-- The plain files among the children of a directory, in scandir order. -/
def fsFiles : List FSTree → List (String × Option String)
  | [] => []
  | .file n c :: rest => (n, c) :: fsFiles rest
  | .dir _ _ :: rest => fsFiles rest

/-- Fold of the file loop over the files of one directory. -/
def foldFiles (pf : String × Option String → ScanData → Except PyErr ScanData) :
    List (String × Option String) → ScanData → Except PyErr ScanData
  | [], d => .ok d
  | f :: rest, d =>
    match pf f d with
    | .error e => .error e
    | .ok d2 => foldFiles pf rest d2

/-- Descend of os.walk into the subdirectories kept by the given filter,
in order, folding the walker w over each. -/
def walkSub (w : List String → List FSTree → ScanData → Except PyErr ScanData)
    (keep : List String → Bool) (rel : List String) :
    List FSTree → ScanData → Except PyErr ScanData
  | [], d => .ok d
  | .file _ _ :: rest, d => walkSub w keep rel rest d
  | .dir n cs :: rest, d =>
    if keep (rel ++ [n]) then
      match w (rel ++ [n]) cs d with
      | .error e => .error e
      | .ok d2 => walkSub w keep rel rest d2
    else walkSub w keep rel rest d

/-- One os.walk root of _single_pass_scan.  An ignored root is skipped with
continue, which also skips the in-place dirs filtering, so os.walk still
descends into all of its subdirectories; a processed root appends its
relative path (except the top), runs the file loop, and descends only into
subdirectories that pass the ignore filter. -/
def walkRoot (cat : List (String × List Matcher)) (pats rootParts : List String)
    (rootStr : String) : Nat → List String → List FSTree → ScanData →
    Except PyErr ScanData
  | 0, _, _, d => .ok d
  | f + 1, rel, children, d =>
    if shouldIgnorePath pats rootParts rel then
      walkSub (walkRoot cat pats rootParts rootStr f) (fun _ => true) rel children d
    else
      match foldFiles (processFile cat pats rootParts rootStr rel) (fsFiles children)
          (if rel.isEmpty then d
           else { d with directories := d.directories ++ [joinPath rel] }) with
      | .error e => .error e
      | .ok d2 =>
        walkSub (walkRoot cat pats rootParts rootStr f)
          (fun q => !shouldIgnorePath pats rootParts q) rel children d2

/-- The final array limiting of _single_pass_scan: every technology
indicator list is cut to its first twenty entries. -/
def postProcess (d : ScanData) : ScanData :=
  { d with tech :=
    { frontend := d.tech.frontend.take 20,
      backend := d.tech.backend.take 20,
      ai_integration := d.tech.ai_integration.take 20,
      database := d.tech.database.take 20,
      deployment := d.tech.deployment.take 20,
      documentation := d.tech.documentation.take 20 } }

/-- _single_pass_scan over a tree of directory children of the project root. -/
def singlePassScan (cat : List (String × List Matcher)) (pats rootParts : List String)
    (rootStr : String) (tree : List FSTree) : Except PyErr ScanData :=
  (walkRoot cat pats rootParts rootStr (tsizeL tree + 1) [] tree initScanData).map
    postProcess

/-! ## Aggregation (_generate_optimized_summary) -/

/-- Round half to even of an exact rational, the semantics of round on the
values reached here. -/
def rndHalfEven (x : ℚ) : ℤ :=
  if x - ((⌊x⌋ : ℤ) : ℚ) < 1 / 2 then ⌊x⌋
  else if 1 / 2 < x - ((⌊x⌋ : ℤ) : ℚ) then ⌊x⌋ + 1
  else if ⌊x⌋ % 2 = 0 then ⌊x⌋ else ⌊x⌋ + 1

/-- round(x, 2) over exact rationals. -/
def round2 (x : ℚ) : ℚ := ((rndHalfEven (x * 100) : ℤ) : ℚ) / 100

/-- coverage_percentage of the optimized summary:
round((documented / max(1, total)) * 100, 2). -/
def coveragePercentage (documented total : Nat) : ℚ :=
  round2 (((documented : ℚ) / ((max 1 total : Nat) : ℚ)) * 100)

/-- The performance_metrics block of _generate_optimized_summary. -/
structure PerfMetrics where
  file_count : Nat
  directory_count : Nat
  function_density : ℚ
  documentation_coverage : ℚ
  complexity_score : String
deriving Repr, DecidableEq

/-- performance_metrics of _generate_optimized_summary: the complexity score
is high when total_functions exceeds 500, medium when it exceeds 100, low
otherwise. -/
def performanceMetrics (d : ScanData) : PerfMetrics :=
  { file_count := d.total_files,
    directory_count := d.directories.length,
    function_density :=
      round2 ((d.total_functions : ℚ) / ((max 1 d.total_files : Nat) : ℚ)),
    documentation_coverage :=
      coveragePercentage d.documented_functions d.total_functions,
    complexity_score :=
      if 500 < d.total_functions then "high"
      else if 100 < d.total_functions then "medium" else "low" }

/-- Modelled from the spec: the complexity rule as the specification words
it, for comparison with the implemented rule: high when total files exceed
100 or total declarations exceed 500, low when files are under 20 or
declarations under 50, medium otherwise, high checked first. -/
def specComplexityScore (totalFiles totalDeclarations : Nat) : String :=
  if 100 < totalFiles ∨ 500 < totalDeclarations then "high"
  else if totalFiles < 20 ∨ totalDeclarations < 50 then "low"
  else "medium"

/-! ## Lenient text decoding (open with encoding utf-8 and an errors handler) -/

/-- The errors handler passed to open: the source passes ignore; strict and
replace are modelled for comparison. -/
inductive DecMode where
  | strict
  | ignore
  | replace
deriving Repr, DecidableEq

/-- Is a byte a UTF-8 continuation byte. -/
def isCont (b : Nat) : Bool := 128 ≤ b && b < 192

/-- UTF-8 decoding machine producing the decoded scalar stream, with none
marking each malformed-sequence event (invalid prefixes are consumed per the
maximal-subpart convention of the codec).  The fuel only bounds recursion
depth; every recursive call moves to a strict suffix, so a fuel of the byte
count plus one never runs out. -/
def utf8Go : Nat → List Nat → List (Option Char)
  | 0, _ => []
  | _ + 1, [] => []
  | f + 1, b :: rest =>
    if b < 128 then Char.ofNat b :: utf8Go f rest
    else if 194 ≤ b && b ≤ 223 then
      match rest with
      | b2 :: r2 =>
        if isCont b2 then Char.ofNat ((b - 192) * 64 + (b2 - 128)) :: utf8Go f r2
        else none :: utf8Go f rest
      | [] => [none]
    else if 224 ≤ b && b ≤ 239 then
      match rest with
      | b2 :: r2 =>
        let okSecond :=
          if b = 224 then 160 ≤ b2 && b2 < 192
          else if b = 237 then 128 ≤ b2 && b2 < 160
          else isCont b2
        if okSecond then
          match r2 with
          | b3 :: r3 =>
            if isCont b3 then
              Char.ofNat ((b - 224) * 4096 + (b2 - 128) * 64 + (b3 - 128)) ::
                utf8Go f r3
            else none :: utf8Go f r2
          | [] => [none]
        else none :: utf8Go f rest
      | [] => [none]
    else if 240 ≤ b && b ≤ 244 then
      match rest with
      | b2 :: r2 =>
        let okSecond :=
          if b = 240 then 144 ≤ b2 && b2 < 192
          else if b = 244 then 128 ≤ b2 && b2 < 144
          else isCont b2
        if okSecond then
          match r2 with
          | b3 :: r3 =>
            if isCont b3 then
              match r3 with
              | b4 :: r4 =>
                if isCont b4 then
                  Char.ofNat ((b - 240) * 262144 + (b2 - 128) * 4096 +
                    (b3 - 128) * 64 + (b4 - 128)) :: utf8Go f r4
                else none :: utf8Go f r3
              | [] => [none]
            else none :: utf8Go f r2
          | [] => [none]
        else none :: utf8Go f rest
      | [] => [none]
    else none :: utf8Go f rest

/-- The decoded event stream of a byte list. -/
def utf8Events (bytes : List Nat) : List (Option Char) :=
  utf8Go (bytes.length + 1) bytes

/-- The replacement character emitted by the replace handler. -/
def repChar : Char := '�'

/-- Decoding as performed by open(path, encoding=utf-8, errors=mode): the
strict handler raises on the first malformed sequence, ignore drops each,
replace substitutes one replacement character for each. -/
def pyDecode (mode : DecMode) (bytes : List Nat) : Except String String :=
  let evs := utf8Events bytes
  match mode with
  | .strict =>
    if evs.contains none then .error "UnicodeDecodeError" else
      .ok (String.mk (evs.filterMap id))
  | .ignore => .ok (String.mk (evs.filterMap id))
  | .replace => .ok (String.mk (evs.map (fun e => e.getD repChar)))

/-! ## Derived notions used by the verification statements -/

/-- Invariant of the analysis accumulator: the functions list splits into
the documented and missing parts, and every missing name was recorded as a
function. -/
def accInv (st : FnAcc) : Prop :=
  st.functions.length = st.documented.length + st.missing.length ∧
    ∀ x ∈ st.missing, x ∈ st.functions

/-- Every plain file of a forest, at any depth, satisfies Q. -/
inductive ForestOk (Q : String × Option String → Prop) : List FSTree → Prop where
  | nil : ForestOk Q []
  | consFile {n c rest} : Q (n, c) → ForestOk Q rest →
      ForestOk Q (FSTree.file n c :: rest)
  | consDir {n cs rest} : ForestOk Q cs → ForestOk Q rest →
      ForestOk Q (FSTree.dir n cs :: rest)

/-- The aggregate that one language_breakdown entry is supposed to hold:
the analyzed records of that extension, counted and summed, and absent when
there are none. -/
def langAgg (ext : String) (recs : List FileRecord) : Option LangStat :=
  let l := recs.filter (fun r => r.language == some ext)
  if l.isEmpty then none
  else some ⟨l.length, (l.map (fun r => r.function_count)).sum⟩

/-- The line used by the oversized-file statements. -/
def pyLine : String := "def foo():"

/-! ## Breadcrumb window lemmas -/

theorem windowIdx_bounds (len i : Nat) :
    ∀ j ∈ windowIdx len i, j < len ∧ i ≤ j + 5 ∧ j < i + 3 := by
  intro j hj
  rw [windowIdx, List.mem_range'_1] at hj
  have h1 := Nat.min_le_left len (i + 3)
  have h2 := Nat.min_le_right len (i + 3)
  omega

/-- Claim C6: a breadcrumb marker placed more than the fixed lookback
distance of five lines above a matched declaration line is not detected as
documenting it, and every index the detector inspects lies inside the file
bounds and inside the window from five lines above to two lines below, with
no wraparound. -/
theorem breadcrumb_window_bounded (lines : List String) (i : Nat)
    (h : ∀ j, j < lines.length → lineHasMarker (lines.getD j "") = true → j + 5 < i) :
    hasBreadcrumb lines i = false ∧
      ∀ j ∈ windowIdx lines.length i, j < lines.length ∧ i ≤ j + 5 ∧ j < i + 3 := by
  refine ⟨?_, windowIdx_bounds _ _⟩
  simp only [hasBreadcrumb]
  rw [List.any_eq_false]
  intro j hj
  have hb := windowIdx_bounds lines.length i j hj
  simp only [Bool.not_eq_true]
  cases hm : lineHasMarker (lines.getD j "") with
  | false => rfl
  | true => exact absurd (h j hb.1 hm) (by omega)

/-- Witness for C6: a marker six lines above the declaration is ignored. -/
theorem breadcrumb_window_bounded_witness :
    hasBreadcrumb ["# @codebase-summary: doc", "", "", "", "", "", "def foo():"] 6 = false :=
  (breadcrumb_window_bounded ["# @codebase-summary: doc", "", "", "", "", "", "def foo():"] 6
    (by decide)).1

/-! ## Partition invariant of the analysis loop -/

theorem procMatches_inv (lines : List String) (i : Nat) :
    ∀ (items : List MatchItem) (st st2 : FnAcc), accInv st →
      procMatches lines i items st = .ok st2 → accInv st2 := by
  intro items
  induction items with
  | nil =>
    intro st st2 h he
    rw [procMatches] at he
    cases he
    exact h
  | cons m rest ih =>
    intro st st2 h he
    cases m with
    | one s =>
      rw [procMatches] at he
      split at he
      · split at he
        · refine ih _ _ ⟨?_, ?_⟩ he
          · simp only [List.length_append, List.length_cons, List.length_nil, h.1]
            omega
          · intro x hx
            exact List.mem_append_left _ (h.2 x hx)
        · refine ih _ _ ⟨?_, ?_⟩ he
          · simp only [List.length_append, List.length_cons, List.length_nil, h.1]
            omega
          · intro x hx
            rcases List.mem_append.mp hx with hx1 | hx2
            · exact List.mem_append_left _ (h.2 x hx1)
            · exact List.mem_append_right _ hx2
      · exact ih _ _ h he
    | tup gs =>
      rw [procMatches] at he
      split at he
      · exact ih _ _ h he
      · exact Except.noConfusion he

theorem runPats_inv (lines : List String) (i : Nat) (line : String) :
    ∀ (ps : List Matcher) (st st2 : FnAcc), accInv st →
      runPats lines i line ps st = .ok st2 → accInv st2 := by
  intro ps
  induction ps with
  | nil =>
    intro st st2 h he
    rw [runPats] at he
    cases he
    exact h
  | cons p rest ih =>
    intro st st2 h he
    rw [runPats] at he
    cases hm : procMatches lines i (p line) st with
    | error e => rw [hm] at he; exact Except.noConfusion he
    | ok st3 =>
      rw [hm] at he
      exact ih _ _ (procMatches_inv lines i _ _ _ h hm) he

theorem runLines_inv (patterns : List Matcher) (lines : List String) :
    ∀ (l : List (Nat × String)) (st st2 : FnAcc), accInv st →
      runLines patterns lines l st = .ok st2 → accInv st2 := by
  intro l
  induction l with
  | nil =>
    intro st st2 h he
    rw [runLines] at he
    cases he
    exact h
  | cons q rest ih =>
    intro st st2 h he
    rw [runLines] at he
    cases hm : runPats lines q.1 q.2 patterns st with
    | error e => rw [hm] at he; exact Except.noConfusion he
    | ok st3 =>
      rw [hm] at he
      exact ih _ _ (runPats_inv lines q.1 q.2 patterns _ _ h hm) he

theorem analyzeAllLines_inv (patterns : List Matcher) (lines : List String)
    (fa : FnAcc) (h : analyzeAllLines patterns lines = .ok fa) : accInv fa :=
  runLines_inv patterns lines lines.enum ⟨[], [], []⟩ fa ⟨rfl, by intro x hx; cases hx⟩ h

theorem analyzeCodeFile_counts (cat : List (String × List Matcher))
    (name relStr fullPath : String) (content : Option String) (r : FileRecord)
    (h : analyzeCodeFile cat name relStr fullPath content = .ok r) :
    r.documented_count + r.missing_breadcrumbs.length = r.function_count ∧
      r.documented_count ≤ r.function_count := by
  cases content with
  | none =>
    rw [analyzeCodeFile] at h
    cases h
    exact ⟨rfl, Nat.le_refl _⟩
  | some c =>
    rw [analyzeCodeFile] at h
    cases hm : analyzeAllLines (catalogGet cat (langOfExt (toLowerStr (pathSuffix name))))
        (splitLines c) with
    | error e => rw [hm] at h; exact Except.noConfusion h
    | ok fa =>
      rw [hm] at h
      cases h
      obtain ⟨h1, _⟩ := analyzeAllLines_inv _ _ _ hm
      refine ⟨h1.symm, ?_⟩
      show fa.documented.length ≤ fa.functions.length
      omega

/-- Claim C7 (amended): for a readable file the analysis loop partitions the
detected declarations: every missing name is among the detected declaration
list, documented plus missing counts equal the declaration count reported as
function_count, and the functions field of the emitted record is emptied for
optimization (so the record itself does not carry the declaration list). -/
theorem missing_partition (cat : List (String × List Matcher))
    (name relStr fullPath c : String) (r : FileRecord)
    (h : analyzeCodeFile cat name relStr fullPath (some c) = .ok r) :
    ∃ fa : FnAcc,
      analyzeAllLines (catalogGet cat (langOfExt (toLowerStr (pathSuffix name))))
          (splitLines c) = .ok fa ∧
        r.missing_breadcrumbs = fa.missing ∧
        (∀ x ∈ fa.missing, x ∈ fa.functions) ∧
        r.documented_count + r.missing_breadcrumbs.length = r.function_count ∧
        r.function_count = fa.functions.length ∧
        r.functions = [] := by
  rw [analyzeCodeFile] at h
  cases hm : analyzeAllLines (catalogGet cat (langOfExt (toLowerStr (pathSuffix name))))
      (splitLines c) with
  | error e => rw [hm] at h; exact Except.noConfusion h
  | ok fa =>
    rw [hm] at h
    cases h
    have hinv := analyzeAllLines_inv _ _ _ hm
    exact ⟨fa, rfl, rfl, hinv.2, hinv.1.symm, rfl, rfl⟩

/-- Witness for C7 (amended), at a one-line python file with one
undocumented declaration. -/
theorem missing_partition_witness :
    (⟨"b.py", some ".py", 1, 0, [], ["bar"], some 1⟩ : FileRecord).documented_count +
        (⟨"b.py", some ".py", 1, 0, [], ["bar"], some 1⟩ : FileRecord).missing_breadcrumbs.length =
      (⟨"b.py", some ".py", 1, 0, [], ["bar"], some 1⟩ : FileRecord).function_count := by
  obtain ⟨fa, _, _, _, h4, _, _⟩ :=
    missing_partition theCatalog "b.py" "b.py" "/proj/b.py" "def bar():"
      ⟨"b.py", some ".py", 1, 0, [], ["bar"], some 1⟩ (by decide)
  exact h4

/-- Counterexample for C7 as stated: the emitted record of a file with one
undocumented declaration has missing_breadcrumbs = [bar] but an empty
functions list, so the missing list is not a subset of the declarations list
of the record and the counts do not tally against that list. -/
theorem record_functions_empty_counterexample :
    analyzeCodeFile theCatalog "b.py" "b.py" "/proj/b.py" (some "def bar():") =
        .ok ⟨"b.py", some ".py", 1, 0, [], ["bar"], some 1⟩ ∧
      ("bar" ∈ (⟨"b.py", some ".py", 1, 0, [], ["bar"], some 1⟩ : FileRecord).missing_breadcrumbs ∧
        "bar" ∉ (⟨"b.py", some ".py", 1, 0, [], ["bar"], some 1⟩ : FileRecord).functions) ∧
      ¬((⟨"b.py", some ".py", 1, 0, [], ["bar"], some 1⟩ : FileRecord).documented_count +
          (⟨"b.py", some ".py", 1, 0, [], ["bar"], some 1⟩ : FileRecord).missing_breadcrumbs.length =
        (⟨"b.py", some ".py", 1, 0, [], ["bar"], some 1⟩ : FileRecord).functions.length) :=
  ⟨by decide, ⟨by decide, by decide⟩, by decide⟩

/-- Claim C2 (code bug): a cpp file whose line matches the qualified-method
pattern makes re.findall return tuples, the startswith call on a tuple
raises AttributeError outside any try block, and the error surfaces to the
caller of the scan. -/
theorem cpp_tuple_crash :
    singlePassScan theCatalog defaultIgnores ["/", "proj"] "/proj"
        [FSTree.file "m.cpp" (some "void Foo::bar() \x7b")] =
      .error PyErr.attributeError ∧
      analyzeCodeFile theCatalog "m.cpp" "m.cpp" "/proj/m.cpp"
          (some "void Foo::bar() \x7b") =
        .error PyErr.attributeError :=
  ⟨by decide, by decide⟩

/-! ## Walk preservation lemmas -/

theorem structUpdate_fields (rel : List String) (name : String) (d : ScanData) :
    (structUpdate rel name d).total_functions = d.total_functions ∧
      (structUpdate rel name d).documented_functions = d.documented_functions ∧
      (structUpdate rel name d).file_analysis = d.file_analysis ∧
      (structUpdate rel name d).language_breakdown = d.language_breakdown ∧
      (structUpdate rel name d).directories = d.directories ∧
      (structUpdate rel name d).missing_breadcrumbs = d.missing_breadcrumbs := by
  simp only [structUpdate]
  split <;> exact ⟨rfl, rfl, rfl, rfl, rfl, rfl⟩

theorem foldFiles_preserveP (pf : String × Option String → ScanData → Except PyErr ScanData)
    (P : ScanData → Prop)
    (hpf : ∀ e d d2, P d → pf e d = .ok d2 → P d2) :
    ∀ files d d2, P d → foldFiles pf files d = .ok d2 → P d2 := by
  intro files
  induction files with
  | nil =>
    intro d d2 h he
    rw [foldFiles] at he
    cases he
    exact h
  | cons f rest ih =>
    intro d d2 h he
    rw [foldFiles] at he
    cases hm : pf f d with
    | error e => rw [hm] at he; exact Except.noConfusion he
    | ok d3 => rw [hm] at he; exact ih _ _ (hpf _ _ _ h hm) he

theorem walkSub_preserveP (w : List String → List FSTree → ScanData → Except PyErr ScanData)
    (keep : List String → Bool) (rel : List String) (P : ScanData → Prop)
    (hw : ∀ rel2 cs2 d d2, P d → w rel2 cs2 d = .ok d2 → P d2) :
    ∀ cs d d2, P d → walkSub w keep rel cs d = .ok d2 → P d2 := by
  intro cs
  induction cs with
  | nil =>
    intro d d2 h he
    rw [walkSub] at he
    cases he
    exact h
  | cons t rest ih =>
    intro d d2 h he
    cases t with
    | file n c => rw [walkSub] at he; exact ih _ _ h he
    | dir n cs2 =>
      rw [walkSub] at he
      split at he
      · cases hm : w (rel ++ [n]) cs2 d with
        | error e => rw [hm] at he; exact Except.noConfusion he
        | ok d3 => rw [hm] at he; exact ih _ _ (hw _ _ _ _ h hm) he
      · exact ih _ _ h he

theorem walkRoot_preserveP (cat : List (String × List Matcher))
    (pats rootParts : List String) (rootStr : String) (P : ScanData → Prop)
    (hpf : ∀ rel e d d2, P d →
      processFile cat pats rootParts rootStr rel e d = .ok d2 → P d2)
    (hD : ∀ s d, P d → P { d with directories := d.directories ++ [s] }) :
    ∀ f rel cs d d2, P d →
      walkRoot cat pats rootParts rootStr f rel cs d = .ok d2 → P d2 := by
  intro f
  induction f with
  | zero =>
    intro rel cs d d2 h he
    rw [walkRoot] at he
    cases he
    exact h
  | succ f ih =>
    intro rel cs d d2 h he
    rw [walkRoot] at he
    split at he
    · exact walkSub_preserveP _ _ _ P (fun rel2 cs2 => ih rel2 cs2) cs d d2 h he
    · have h1 : P (if rel.isEmpty then d
          else { d with directories := d.directories ++ [joinPath rel] }) := by
        split
        · exact h
        · exact hD _ _ h
      cases hm : foldFiles (processFile cat pats rootParts rootStr rel) (fsFiles cs)
          (if rel.isEmpty then d
           else { d with directories := d.directories ++ [joinPath rel] }) with
      | error e => rw [hm] at he; exact Except.noConfusion he
      | ok d3 =>
        rw [hm] at he
        exact walkSub_preserveP _ _ _ P (fun rel2 cs2 => ih rel2 cs2) cs d3 d2
          (foldFiles_preserveP _ P (hpf rel) _ _ _ h1 hm) he

theorem fsFiles_ok {Q : String × Option String → Prop} :
    ∀ {cs : List FSTree}, ForestOk Q cs → ∀ e ∈ fsFiles cs, Q e := by
  intro cs h
  induction h with
  | nil => intro e he; cases he
  | consFile hq _ ih =>
    intro e he
    rw [fsFiles] at he
    rcases List.mem_cons.mp he with rfl | he2
    · exact hq
    · exact ih e he2
  | consDir _ _ _ ih2 =>
    intro e he
    rw [fsFiles] at he
    exact ih2 e he

theorem foldFiles_ok (pf : String × Option String → ScanData → Except PyErr ScanData)
    (Q : String × Option String → Prop) (P : ScanData → Prop)
    (hpf : ∀ e d, Q e → P d → ∃ d2, pf e d = .ok d2 ∧ P d2) :
    ∀ files d, (∀ e ∈ files, Q e) → P d →
      ∃ d2, foldFiles pf files d = .ok d2 ∧ P d2 := by
  intro files
  induction files with
  | nil =>
    intro d _ h
    exact ⟨d, by rw [foldFiles], h⟩
  | cons f rest ih =>
    intro d hq h
    obtain ⟨d3, hm, h3⟩ := hpf f d (hq f (List.mem_cons_self f rest)) h
    rw [foldFiles, hm]
    exact ih d3 (fun e he => hq e (List.mem_cons_of_mem f he)) h3

theorem walkSub_ok (w : List String → List FSTree → ScanData → Except PyErr ScanData)
    (keep : List String → Bool) (rel : List String)
    (Q : String × Option String → Prop) (P : ScanData → Prop)
    (hw : ∀ rel2 cs2 d, ForestOk Q cs2 → P d → ∃ d2, w rel2 cs2 d = .ok d2 ∧ P d2) :
    ∀ cs d, ForestOk Q cs → P d →
      ∃ d2, walkSub w keep rel cs d = .ok d2 ∧ P d2 := by
  intro cs
  induction cs with
  | nil =>
    intro d _ h
    exact ⟨d, by rw [walkSub], h⟩
  | cons t rest ih =>
    intro d hok h
    cases t with
    | file n c =>
      cases hok with
      | consFile _ hrest => rw [walkSub]; exact ih d hrest h
    | dir n cs2 =>
      cases hok with
      | consDir hcs hrest =>
        rw [walkSub]
        split
        · obtain ⟨d3, hm, h3⟩ := hw (rel ++ [n]) cs2 d hcs h
          rw [hm]
          exact ih d3 hrest h3
        · exact ih d hrest h

theorem walkRoot_ok (cat : List (String × List Matcher))
    (pats rootParts : List String) (rootStr : String)
    (Q : String × Option String → Prop) (P : ScanData → Prop)
    (hpf : ∀ rel e d, Q e → P d →
      ∃ d2, processFile cat pats rootParts rootStr rel e d = .ok d2 ∧ P d2)
    (hD : ∀ s d, P d → P { d with directories := d.directories ++ [s] }) :
    ∀ f rel cs d, ForestOk Q cs → P d →
      ∃ d2, walkRoot cat pats rootParts rootStr f rel cs d = .ok d2 ∧ P d2 := by
  intro f
  induction f with
  | zero =>
    intro rel cs d _ h
    exact ⟨d, by rw [walkRoot], h⟩
  | succ f ih =>
    intro rel cs d hok h
    rw [walkRoot]
    split
    · exact walkSub_ok _ _ _ Q P (fun rel2 cs2 => ih rel2 cs2) cs d hok h
    · have h1 : P (if rel.isEmpty then d
          else { d with directories := d.directories ++ [joinPath rel] }) := by
        split
        · exact h
        · exact hD _ _ h
      obtain ⟨d3, hm, h3⟩ := foldFiles_ok _ Q P (hpf rel) (fsFiles cs) _ (fsFiles_ok hok) h1
      rw [hm]
      exact walkSub_ok _ _ _ Q P (fun rel2 cs2 => ih rel2 cs2) cs d3 hok h3

/-- Claim C9 (amended): a file that cannot be opened yields the early-return
record with zero declarations, zero documented and missing counts and no
language or line-count keys; decoding with the ignore error handler never
raises; and a scan over a tree of unreadable files completes with no
analyzed file and zero function totals. -/
theorem unreadable_file_empty :
    (∀ (cat : List (String × List Matcher)) (name relStr fullPath : String),
        analyzeCodeFile cat name relStr fullPath none =
          .ok ⟨fullPath, none, 0, 0, [], [], none⟩) ∧
      (∀ bytes : List Nat, (pyDecode DecMode.ignore bytes).isOk = true) ∧
      ∀ (cat : List (String × List Matcher)) (pats rootParts : List String)
        (rootStr : String) (tree : List FSTree),
        ForestOk (fun e => e.2 = none) tree →
        ∃ d, singlePassScan cat pats rootParts rootStr tree = .ok d ∧
          d.total_functions = 0 ∧ d.documented_functions = 0 ∧ d.file_analysis = [] := by
  refine ⟨fun cat name relStr fullPath => rfl, fun bytes => rfl, ?_⟩
  intro cat pats rootParts rootStr tree hok
  have hpf : ∀ rel e d, (e : String × Option String).2 = none →
      (d.total_functions = 0 ∧ d.documented_functions = 0 ∧ d.file_analysis = []) →
      ∃ d2, processFile cat pats rootParts rootStr rel e d = .ok d2 ∧
        (d2.total_functions = 0 ∧ d2.documented_functions = 0 ∧ d2.file_analysis = []) := by
    intro rel e d he h
    rw [processFile]
    split
    · exact ⟨d, rfl, h⟩
    · obtain ⟨f1, f2, f3, _⟩ := structUpdate_fields rel e.1 d
      rw [he]
      split
      · exact ⟨structUpdate rel e.1 d, rfl, by rw [f1, f2, f3]; exact h⟩
      · exact ⟨structUpdate rel e.1 d, rfl, by rw [f1, f2, f3]; exact h⟩
  obtain ⟨d2, hw, hp⟩ := walkRoot_ok cat pats rootParts rootStr (fun e => e.2 = none)
    (fun x => x.total_functions = 0 ∧ x.documented_functions = 0 ∧ x.file_analysis = [])
    hpf (fun s d h => h) (tsizeL tree + 1) [] tree initScanData hok ⟨rfl, rfl, rfl⟩
  refine ⟨postProcess d2, ?_, hp.1, hp.2.1, hp.2.2⟩
  rw [singlePassScan, hw]
  rfl

/-- Witness for C9 (amended), at a single unreadable file. -/
theorem unreadable_file_empty_witness :
    ∃ d, singlePassScan theCatalog defaultIgnores ["/", "proj"] "/proj"
        [FSTree.file "a.bin" none] = .ok d ∧
      d.total_functions = 0 ∧ d.documented_functions = 0 ∧ d.file_analysis = [] :=
  unreadable_file_empty.2.2 theCatalog defaultIgnores ["/", "proj"] "/proj"
    [FSTree.file "a.bin" none] (ForestOk.consFile rfl ForestOk.nil)

/-! ## Coverage percentage -/

theorem processFile_doc_le (cat : List (String × List Matcher))
    (pats rootParts : List String) (rootStr : String) :
    ∀ rel e d d2, d.documented_functions ≤ d.total_functions →
      processFile cat pats rootParts rootStr rel e d = .ok d2 →
      d2.documented_functions ≤ d2.total_functions := by
  intro rel e d d2 h he
  rw [processFile] at he
  split at he
  · cases he; exact h
  · obtain ⟨f1, f2, _⟩ := structUpdate_fields rel e.1 d
    split at he
    · cases hm : analyzeCodeFile cat e.1 (joinPath (rel ++ [e.1]))
          (rootStr ++ "/" ++ joinPath (rel ++ [e.1])) e.2 with
      | error er => rw [hm] at he; exact Except.noConfusion he
      | ok a =>
        rw [hm] at he
        have he2 : (if 0 < a.function_count then
            Except.ok (foldAnalysis a (pathSuffix e.1) (structUpdate rel e.1 d))
          else Except.ok (structUpdate rel e.1 d)) = Except.ok d2 := he
        by_cases hc : 0 < a.function_count
        · rw [if_pos hc] at he2
          cases he2
          obtain ⟨_, hdle⟩ := analyzeCodeFile_counts _ _ _ _ _ _ hm
          show (structUpdate rel e.1 d).documented_functions + a.documented_count ≤
            (structUpdate rel e.1 d).total_functions + a.function_count
          rw [f1, f2]
          omega
        · rw [if_neg hc] at he2
          cases he2
          show (structUpdate rel e.1 d).documented_functions ≤
            (structUpdate rel e.1 d).total_functions
          rw [f1, f2]
          exact h
    · cases he
      show (structUpdate rel e.1 d).documented_functions ≤
        (structUpdate rel e.1 d).total_functions
      rw [f1, f2]
      exact h

theorem scan_documented_le (cat : List (String × List Matcher))
    (pats rootParts : List String) (rootStr : String) (tree : List FSTree)
    (d : ScanData) (h : singlePassScan cat pats rootParts rootStr tree = .ok d) :
    d.documented_functions ≤ d.total_functions := by
  rw [singlePassScan] at h
  cases hw : walkRoot cat pats rootParts rootStr (tsizeL tree + 1) [] tree initScanData with
  | error e => rw [hw] at h; exact Except.noConfusion h
  | ok raw =>
    rw [hw] at h
    cases h
    exact walkRoot_preserveP cat pats rootParts rootStr
      (fun x => x.documented_functions ≤ x.total_functions)
      (processFile_doc_le cat pats rootParts rootStr) (fun s d h => h)
      (tsizeL tree + 1) [] tree initScanData raw (Nat.le_refl 0) hw

theorem rndHalfEven_nonneg (x : ℚ) (hx : 0 ≤ x) : 0 ≤ rndHalfEven x := by
  unfold rndHalfEven
  have h0 : (0 : ℤ) ≤ ⌊x⌋ := Int.floor_nonneg.mpr hx
  split_ifs <;> omega

theorem rndHalfEven_le (x : ℚ) (B : ℤ) (hx : x ≤ (B : ℚ)) : rndHalfEven x ≤ B := by
  unfold rndHalfEven
  have h1 : ⌊x⌋ ≤ B := by
    have := Int.floor_le_floor hx
    rwa [Int.floor_intCast] at this
  have hfl : ((⌊x⌋ : ℤ) : ℚ) ≤ x := Int.floor_le x
  split_ifs with hr1 hr2 hpar
  · exact h1
  · have hlt : ((⌊x⌋ : ℤ) : ℚ) < (B : ℚ) := by
      have : ((⌊x⌋ : ℤ) : ℚ) + 1 / 2 < x := by linarith
      linarith
    have := Int.cast_lt.mp hlt
    omega
  · exact h1
  · have heq : x - ((⌊x⌋ : ℤ) : ℚ) = 1 / 2 := le_antisymm (not_lt.mp hr2) (not_lt.mp hr1)
    have hlt : ((⌊x⌋ : ℤ) : ℚ) < (B : ℚ) := by linarith
    have := Int.cast_lt.mp hlt
    omega

theorem round2_nonneg (x : ℚ) (hx : 0 ≤ x) : 0 ≤ round2 x := by
  rw [round2]
  have h := rndHalfEven_nonneg (x * 100) (by positivity)
  positivity

theorem round2_le_100 (x : ℚ) (hx : x ≤ 100) : round2 x ≤ 100 := by
  rw [round2]
  have h := rndHalfEven_le (x * 100) 10000 (by push_cast; linarith)
  rw [div_le_iff₀ (by norm_num : (0 : ℚ) < 100)]
  have : ((rndHalfEven (x * 100) : ℤ) : ℚ) ≤ ((10000 : ℤ) : ℚ) := Int.cast_le.mpr h
  push_cast at this ⊢
  linarith

theorem coveragePercentage_spec (documented total : Nat) (hle : documented ≤ total) :
    (total = 0 → coveragePercentage documented total = 0) ∧
      (0 < total → coveragePercentage documented total =
        round2 (((documented : ℚ) / (total : ℚ)) * 100)) ∧
      0 ≤ coveragePercentage documented total ∧
      coveragePercentage documented total ≤ 100 := by
  refine ⟨?_, ?_, ?_, ?_⟩
  · intro h0
    subst h0
    have hd : documented = 0 := Nat.le_zero.mp hle
    subst hd
    rw [coveragePercentage, round2, rndHalfEven]
    norm_num
  · intro hpos
    have hm : max 1 total = total := Nat.max_eq_right hpos
    rw [coveragePercentage, hm]
  · rw [coveragePercentage]
    apply round2_nonneg
    positivity
  · rw [coveragePercentage]
    apply round2_le_100
    have hmem : documented ≤ max 1 total := le_trans hle (Nat.le_max_right 1 total)
    have h2 : (0 : ℚ) < ((max 1 total : Nat) : ℚ) := by
      have : 0 < max 1 total := lt_of_lt_of_le one_pos (Nat.le_max_left 1 total)
      exact_mod_cast this
    have h1 : (documented : ℚ) ≤ ((max 1 total : Nat) : ℚ) := by exact_mod_cast hmem
    have hdiv : (documented : ℚ) / ((max 1 total : Nat) : ℚ) ≤ 1 := (div_le_one h2).mpr h1
    linarith

/-- Claim C1: for every completed scan, coverage_percentage equals
round to two decimals of documented over total times one hundred when the
total declaration count is positive, equals exactly zero when the total is
zero, and always lies between zero and one hundred. -/
theorem coverage_spec (cat : List (String × List Matcher))
    (pats rootParts : List String) (rootStr : String) (tree : List FSTree)
    (d : ScanData) (h : singlePassScan cat pats rootParts rootStr tree = .ok d) :
    (d.total_functions = 0 →
        coveragePercentage d.documented_functions d.total_functions = 0) ∧
      (0 < d.total_functions →
        coveragePercentage d.documented_functions d.total_functions =
          round2 (((d.documented_functions : ℚ) / (d.total_functions : ℚ)) * 100)) ∧
      0 ≤ coveragePercentage d.documented_functions d.total_functions ∧
      coveragePercentage d.documented_functions d.total_functions ≤ 100 :=
  coveragePercentage_spec d.documented_functions d.total_functions
    (scan_documented_le cat pats rootParts rootStr tree d h)

/-- Witness for C1, at a one-file fully documented scan. -/
theorem coverage_spec_witness :
    0 ≤ coveragePercentage 1 1 ∧ coveragePercentage 1 1 ≤ 100 := by
  have h := coverage_spec theCatalog defaultIgnores ["/", "proj"] "/proj"
    [FSTree.file "a.py" (some "def foo():\n# @codebase-summary: doc")]
    ⟨1, [], [(".py", 1)], [], ⟨[], ["a.py"], [], [], [], []⟩, ["a.py"],
      [⟨"a.py", some ".py", 1, 1, [], [], some 2⟩], 1, 1, [], [(".py", ⟨1, 1⟩)]⟩
    (by decide)
  exact ⟨h.2.2.1, h.2.2.2⟩

/-! ## Technology indicator cap -/

/-- Claim C10: after a scan, each technology indicator category is the
first-twenty prefix of the full categorized list, so it holds at most twenty
paths, while total_files, the file_types histogram and all_files are taken
unchanged from the accumulator before the limiting step. -/
theorem tech_indicator_cap (cat : List (String × List Matcher))
    (pats rootParts : List String) (rootStr : String) (tree : List FSTree)
    (d : ScanData) (h : singlePassScan cat pats rootParts rootStr tree = .ok d) :
    ∃ raw, walkRoot cat pats rootParts rootStr (tsizeL tree + 1) [] tree initScanData =
        .ok raw ∧
      d = postProcess raw ∧
      d.tech.frontend = raw.tech.frontend.take 20 ∧
      d.tech.backend = raw.tech.backend.take 20 ∧
      d.tech.ai_integration = raw.tech.ai_integration.take 20 ∧
      d.tech.database = raw.tech.database.take 20 ∧
      d.tech.deployment = raw.tech.deployment.take 20 ∧
      d.tech.documentation = raw.tech.documentation.take 20 ∧
      d.tech.frontend.length ≤ 20 ∧ d.tech.backend.length ≤ 20 ∧
      d.tech.ai_integration.length ≤ 20 ∧ d.tech.database.length ≤ 20 ∧
      d.tech.deployment.length ≤ 20 ∧ d.tech.documentation.length ≤ 20 ∧
      d.total_files = raw.total_files ∧ d.file_types = raw.file_types ∧
      d.all_files = raw.all_files := by
  rw [singlePassScan] at h
  cases hw : walkRoot cat pats rootParts rootStr (tsizeL tree + 1) [] tree initScanData with
  | error e => rw [hw] at h; exact Except.noConfusion h
  | ok raw =>
    rw [hw] at h
    cases h
    exact ⟨raw, rfl, rfl, rfl, rfl, rfl, rfl, rfl, rfl,
      List.length_take_le _ _, List.length_take_le _ _, List.length_take_le _ _,
      List.length_take_le _ _, List.length_take_le _ _, List.length_take_le _ _,
      rfl, rfl, rfl⟩

/-- Witness for C10, at the empty tree. -/
theorem tech_indicator_cap_witness :
    (postProcess initScanData).tech.frontend.length ≤ 20 := by
  obtain ⟨raw, _, _, _, _, _, _, _, _, h9, _⟩ := tech_indicator_cap theCatalog
    defaultIgnores ["/", "proj"] "/proj" [] (postProcess initScanData) (by decide)
  exact h9

/-! ## Complexity score -/

/-- Counterexample for C4: a scan of one hundred one declaration-free files.
The claim requires high (total files above one hundred), but the code
derives the score from the function count alone and reports low. -/
theorem complexity_files_counterexample :
    (singlePassScan theCatalog defaultIgnores ["/", "proj"] "/proj"
        (List.replicate 101 (FSTree.file "a.txt" none))).map
        (fun d => (d.total_files, d.total_functions,
          (performanceMetrics d).complexity_score)) = .ok (101, 0, "low") ∧
      specComplexityScore 101 0 = "high" ∧ ("low" : String) ≠ "high" :=
  ⟨by decide, by decide, by decide⟩

/-- Claim C4 (amended): the complexity score of performance_metrics depends
only on the total declaration count, high above five hundred, medium above
one hundred, low otherwise, with the high check first; the file count is
never consulted, so it never moves the score. -/
theorem complexity_functions_only (d : ScanData) (n : Nat) :
    (performanceMetrics d).complexity_score =
        (if 500 < d.total_functions then "high"
         else if 100 < d.total_functions then "medium" else "low") ∧
      (performanceMetrics { d with total_files := n }).complexity_score =
        (performanceMetrics d).complexity_score :=
  ⟨rfl, rfl⟩

/-! ## Language breakdown -/

theorem lookup_bumpLang (k k2 : String) (fc : Nat) :
    ∀ B : List (String × LangStat),
      List.lookup k2 (bumpLang B k fc) =
        if k2 = k then
          some (match List.lookup k B with
            | some st => (⟨st.files + 1, st.functions + fc⟩ : LangStat)
            | none => (⟨1, fc⟩ : LangStat))
        else List.lookup k2 B := by
  intro B
  induction B with
  | nil =>
    by_cases h : k2 = k
    · subst h
      simp [bumpLang, List.lookup]
    · have hb : (k2 == k) = false := beq_eq_false_iff_ne.mpr h
      simp [bumpLang, List.lookup, hb, h]
  | cons p rest ih =>
    obtain ⟨a, st⟩ := p
    by_cases hak : a = k
    · subst hak
      by_cases h2 : k2 = a
      · subst h2
        simp [bumpLang, List.lookup]
      · have hb2 : (k2 == a) = false := beq_eq_false_iff_ne.mpr h2
        simp [bumpLang, List.lookup, hb2, h2]
    · have hbak : (a == k) = false := beq_eq_false_iff_ne.mpr hak
      by_cases h2 : k2 = a
      · subst h2
        simp [bumpLang, List.lookup, hbak, beq_self_eq_true, hak]
      · have hb2 : (k2 == a) = false := beq_eq_false_iff_ne.mpr h2
        have hbka : (k == a) = false := beq_eq_false_iff_ne.mpr (fun q => hak q.symm)
        simp only [bumpLang, hbak, Bool.false_eq_true, if_false, List.lookup, hb2, hbka]
        exact ih

theorem langAgg_append (ext : String) (recs : List FileRecord) (r : FileRecord) :
    langAgg ext (recs ++ [r]) =
      if r.language == some ext then
        some (match langAgg ext recs with
          | some st => (⟨st.files + 1, st.functions + r.function_count⟩ : LangStat)
          | none => (⟨1, r.function_count⟩ : LangStat))
      else langAgg ext recs := by
  rw [langAgg, langAgg, List.filter_append]
  cases hb : (r.language == some ext) with
  | false =>
    simp [List.filter_cons, hb]
  | true =>
    simp only [List.filter_cons, hb, if_true, List.filter_nil]
    by_cases hl : (List.filter (fun q => q.language == some ext) recs).isEmpty
    · rw [List.isEmpty_iff] at hl
      simp [hl]
    · rw [if_neg hl]
      have hne : (List.filter (fun q => q.language == some ext) recs ++ [r]).isEmpty = false := by
        simp [List.isEmpty_iff]
      rw [if_neg (by rw [hne]; exact fun q => Bool.noConfusion q)]
      simp [List.length_append, List.map_append, List.sum_append]

theorem analyzeCodeFile_language (cat : List (String × List Matcher))
    (name relStr fullPath : String) (content : Option String) (a : FileRecord)
    (hm : analyzeCodeFile cat name relStr fullPath content = .ok a)
    (hc : 0 < a.function_count) :
    a.language = some (toLowerStr (pathSuffix name)) := by
  cases content with
  | none =>
    rw [analyzeCodeFile] at hm
    cases hm
    exact absurd hc (by show ¬(0 : Nat) < 0; omega)
  | some c =>
    rw [analyzeCodeFile] at hm
    cases hmm : analyzeAllLines (catalogGet cat (langOfExt (toLowerStr (pathSuffix name))))
        (splitLines c) with
    | error e => rw [hmm] at hm; exact Except.noConfusion hm
    | ok fa => rw [hmm] at hm; cases hm; rfl

theorem toLower_fix_of_codeExt (ext : String)
    (h : codeExtensions.contains ext = true) : toLowerStr ext = ext := by
  have hm : ext ∈ codeExtensions := List.mem_of_elem_eq_true h
  fin_cases hm <;> decide

theorem processFile_breakdown (cat : List (String × List Matcher))
    (pats rootParts : List String) (rootStr : String) :
    ∀ rel e d d2,
      ((∀ ext, List.lookup ext d.language_breakdown = langAgg ext d.file_analysis) ∧
        ∀ r ∈ d.file_analysis, 0 < r.function_count) →
      processFile cat pats rootParts rootStr rel e d = .ok d2 →
      ((∀ ext, List.lookup ext d2.language_breakdown = langAgg ext d2.file_analysis) ∧
        ∀ r ∈ d2.file_analysis, 0 < r.function_count) := by
  intro rel e d d2 h he
  rw [processFile] at he
  split at he
  · cases he; exact h
  · obtain ⟨_, _, f3, f4, _, _⟩ := structUpdate_fields rel e.1 d
    by_cases hce : codeExtensions.contains (pathSuffix e.1) = true
    · rw [if_pos hce] at he
      cases hm : analyzeCodeFile cat e.1 (joinPath (rel ++ [e.1]))
          (rootStr ++ "/" ++ joinPath (rel ++ [e.1])) e.2 with
      | error er => rw [hm] at he; exact Except.noConfusion he
      | ok a =>
        rw [hm] at he
        have he2 : (if 0 < a.function_count then
            Except.ok (foldAnalysis a (pathSuffix e.1) (structUpdate rel e.1 d))
          else Except.ok (structUpdate rel e.1 d)) = Except.ok d2 := he
        by_cases hc : 0 < a.function_count
        · rw [if_pos hc] at he2
          cases he2
          have hlang : a.language = some (pathSuffix e.1) := by
            rw [analyzeCodeFile_language cat e.1 _ _ e.2 a hm hc,
              toLower_fix_of_codeExt _ hce]
          constructor
          · intro ext
            show List.lookup ext (bumpLang (structUpdate rel e.1 d).language_breakdown
                (pathSuffix e.1) a.function_count) =
              langAgg ext ((structUpdate rel e.1 d).file_analysis ++ [a])
            rw [f3, f4, lookup_bumpLang, langAgg_append, hlang]
            by_cases hek : ext = pathSuffix e.1
            · subst hek
              rw [if_pos rfl, if_pos (beq_iff_eq.mpr rfl), h.1 (pathSuffix e.1)]
            · rw [if_neg hek,
                if_neg (show ¬(some (pathSuffix e.1) == some ext) = true from
                  fun q => hek (Option.some.inj (beq_iff_eq.mp q)).symm), h.1 ext]
          · intro r hr
            have hr0 : r ∈ (structUpdate rel e.1 d).file_analysis ++ [a] := hr
            rw [f3] at hr0
            rcases List.mem_append.mp hr0 with hr1 | hr2
            · exact h.2 r hr1
            · rw [List.mem_singleton.mp hr2]
              exact hc
        · rw [if_neg hc] at he2
          cases he2
          constructor
          · intro ext
            show List.lookup ext (structUpdate rel e.1 d).language_breakdown =
              langAgg ext (structUpdate rel e.1 d).file_analysis
            rw [f3, f4]
            exact h.1 ext
          · intro r hr
            rw [show (structUpdate rel e.1 d).file_analysis = d.file_analysis from f3] at hr
            exact h.2 r hr
    · rw [if_neg hce] at he
      cases he
      constructor
      · intro ext
        show List.lookup ext (structUpdate rel e.1 d).language_breakdown =
          langAgg ext (structUpdate rel e.1 d).file_analysis
        rw [f3, f4]
        exact h.1 ext
      · intro r hr
        rw [show (structUpdate rel e.1 d).file_analysis = d.file_analysis from f3] at hr
        exact h.2 r hr

/-- Claim C8 (amended): language_breakdown keys are file extensions, not
language identifiers, and each entry holds exactly the count of analyzed
files of that extension that reported at least one declaration together with
the sum of their declaration counts; files with zero detected declarations
are not counted. -/
theorem language_breakdown_semantics (cat : List (String × List Matcher))
    (pats rootParts : List String) (rootStr : String) (tree : List FSTree)
    (d : ScanData) (h : singlePassScan cat pats rootParts rootStr tree = .ok d) :
    (∀ ext, List.lookup ext d.language_breakdown = langAgg ext d.file_analysis) ∧
      ∀ r ∈ d.file_analysis, 0 < r.function_count := by
  rw [singlePassScan] at h
  cases hw : walkRoot cat pats rootParts rootStr (tsizeL tree + 1) [] tree initScanData with
  | error e => rw [hw] at h; exact Except.noConfusion h
  | ok raw =>
    rw [hw] at h
    cases h
    exact walkRoot_preserveP cat pats rootParts rootStr
      (fun x => (∀ ext, List.lookup ext x.language_breakdown = langAgg ext x.file_analysis) ∧
        ∀ r ∈ x.file_analysis, 0 < r.function_count)
      (processFile_breakdown cat pats rootParts rootStr) (fun s d h => h)
      (tsizeL tree + 1) [] tree initScanData raw
      ⟨fun ext => rfl, fun r hr => absurd hr (List.not_mem_nil r)⟩ hw

/-- Witness for C8 (amended), at a one-file python scan. -/
theorem language_breakdown_semantics_witness :
    List.lookup ".py" [(".py", (⟨1, 1⟩ : LangStat))] =
      langAgg ".py" [⟨"a.py", some ".py", 1, 0, [], ["foo"], some 1⟩] := by
  have h := language_breakdown_semantics theCatalog defaultIgnores ["/", "proj"] "/proj"
    [FSTree.file "a.py" (some "def foo():")]
    ⟨1, [], [(".py", 1)], [], ⟨[], ["a.py"], [], [], [], []⟩, ["a.py"],
      [⟨"a.py", some ".py", 1, 0, [], ["foo"], some 1⟩], 1, 0, [("a.py", ["foo"])],
      [(".py", ⟨1, 1⟩)]⟩ (by decide)
  exact h.1 ".py"

/-- Counterexample for C8 as stated: a scan of two python files, one with a
declaration and one without, yields a breakdown keyed by the extension, with
no entry under the language identifier python, and counts only the file with
a detected declaration. -/
theorem language_breakdown_keys_counterexample :
    (singlePassScan theCatalog defaultIgnores ["/", "proj"] "/proj"
        [FSTree.file "a.py" (some "def foo():"), FSTree.file "b.py" (some "x = 1")]).map
        (fun d => (d.total_files, List.lookup "python" d.language_breakdown,
          List.lookup ".py" d.language_breakdown)) =
      .ok (2, none, some ⟨1, 1⟩) := by decide

/-! ## Ignore pruning -/

theorem ignore_of_mem_part (pats rootParts rel : List String) (s : String)
    (hs : s ∈ pats) (hrel : s ∈ rel) :
    shouldIgnorePath pats rootParts rel = true := by
  simp only [shouldIgnorePath]
  rw [if_pos]
  rw [List.any_eq_true]
  exact ⟨s, List.mem_append_right _ hrel, List.elem_eq_true_of_mem hs⟩

theorem walkSub_noop (w : List String → List FSTree → ScanData → Except PyErr ScanData)
    (keep : List String → Bool) (rel : List String)
    (hw : ∀ n cs2 d, w (rel ++ [n]) cs2 d = .ok d) :
    ∀ cs d, walkSub w keep rel cs d = .ok d := by
  intro cs
  induction cs with
  | nil => intro d; rw [walkSub]
  | cons t rest ih =>
    intro d
    cases t with
    | file n c => rw [walkSub]; exact ih d
    | dir n cs2 =>
      rw [walkSub]
      split
      · rw [hw n cs2 d]
        exact ih d
      · exact ih d

theorem walkRoot_noop (cat : List (String × List Matcher))
    (pats rootParts : List String) (rootStr : String) (s : String) (hs : s ∈ pats) :
    ∀ f rel cs d, s ∈ rel →
      walkRoot cat pats rootParts rootStr f rel cs d = .ok d := by
  intro f
  induction f with
  | zero => intro rel cs d _; rw [walkRoot]
  | succ f ih =>
    intro rel cs d hrel
    rw [walkRoot, if_pos (ignore_of_mem_part pats rootParts rel s hs hrel)]
    exact walkSub_noop _ _ rel
      (fun n cs2 d2 => ih (rel ++ [n]) cs2 d2 (List.mem_append_left _ hrel)) cs d

theorem walkSub_append (w : List String → List FSTree → ScanData → Except PyErr ScanData)
    (keep : List String → Bool) (rel : List String) :
    ∀ l1 l2 d, walkSub w keep rel (l1 ++ l2) d =
      (match walkSub w keep rel l1 d with
       | .error e => .error e
       | .ok d2 => walkSub w keep rel l2 d2) := by
  intro l1
  induction l1 with
  | nil =>
    intro l2 d
    rw [List.nil_append]
    conv_rhs => rw [walkSub]
  | cons t rest ih =>
    intro l2 d
    cases t with
    | file n c =>
      rw [List.cons_append, walkSub]
      conv_rhs => rw [walkSub]
      exact ih l2 d
    | dir n cs2 =>
      rw [List.cons_append, walkSub]
      conv_rhs => rw [walkSub]
      split
      · cases hw : w (rel ++ [n]) cs2 d with
        | error e => rfl
        | ok d2 => exact ih l2 d2
      · exact ih l2 d

theorem fsFiles_append : ∀ l1 l2 : List FSTree,
    fsFiles (l1 ++ l2) = fsFiles l1 ++ fsFiles l2 := by
  intro l1
  induction l1 with
  | nil => intro l2; rw [List.nil_append, fsFiles, List.nil_append]
  | cons t rest ih =>
    intro l2
    cases t with
    | file n c => rw [List.cons_append, fsFiles, fsFiles, ih, List.cons_append]
    | dir n cs2 => rw [List.cons_append, fsFiles, fsFiles, ih]

theorem walkRoot_remove (cat : List (String × List Matcher))
    (pats rootParts : List String) (rootStr : String) (s : String) (hs : s ∈ pats)
    (kids : List FSTree) :
    ∀ f rel pre post d,
      walkRoot cat pats rootParts rootStr f rel (pre ++ FSTree.dir s kids :: post) d =
        walkRoot cat pats rootParts rootStr f rel (pre ++ post) d := by
  have hmem : ∀ rel : List String, s ∈ rel ++ [s] :=
    fun rel => List.mem_append_right _ (List.mem_singleton_self s)
  intro f
  induction f with
  | zero => intro rel pre post d; rw [walkRoot, walkRoot]
  | succ f ih =>
    intro rel pre post d
    rw [walkRoot]
    conv_rhs => rw [walkRoot]
    by_cases hig : shouldIgnorePath pats rootParts rel = true
    · rw [if_pos hig, if_pos hig, walkSub_append, walkSub_append]
      cases h1 : walkSub (walkRoot cat pats rootParts rootStr f) (fun _ => true) rel pre d with
      | error e => rfl
      | ok d2 =>
        show walkSub (walkRoot cat pats rootParts rootStr f) (fun _ => true) rel
            (FSTree.dir s kids :: post) d2 =
          walkSub (walkRoot cat pats rootParts rootStr f) (fun _ => true) rel post d2
        rw [walkSub, if_pos rfl,
          walkRoot_noop cat pats rootParts rootStr s hs f (rel ++ [s]) kids d2 (hmem rel)]
    · rw [if_neg hig, if_neg hig, fsFiles_append, fsFiles_append,
        show fsFiles (FSTree.dir s kids :: post) = fsFiles post from rfl]
      cases h1 : foldFiles (processFile cat pats rootParts rootStr rel)
          (fsFiles pre ++ fsFiles post)
          (if rel.isEmpty then d
           else { d with directories := d.directories ++ [joinPath rel] }) with
      | error e => rfl
      | ok d2 =>
        show walkSub (walkRoot cat pats rootParts rootStr f)
            (fun q => !shouldIgnorePath pats rootParts q) rel
            (pre ++ FSTree.dir s kids :: post) d2 =
          walkSub (walkRoot cat pats rootParts rootStr f)
            (fun q => !shouldIgnorePath pats rootParts q) rel (pre ++ post) d2
        rw [walkSub_append, walkSub_append]
        cases h2 : walkSub (walkRoot cat pats rootParts rootStr f)
            (fun q => !shouldIgnorePath pats rootParts q) rel pre d2 with
        | error e => rfl
        | ok d3 =>
          show walkSub (walkRoot cat pats rootParts rootStr f)
              (fun q => !shouldIgnorePath pats rootParts q) rel
              (FSTree.dir s kids :: post) d3 =
            walkSub (walkRoot cat pats rootParts rootStr f)
              (fun q => !shouldIgnorePath pats rootParts q) rel post d3
          rw [walkSub,
            if_neg (show ¬(!shouldIgnorePath pats rootParts (rel ++ [s])) = true by
              rw [ignore_of_mem_part pats rootParts (rel ++ [s]) s hs (hmem rel)]
              exact fun q => Bool.noConfusion q)]

theorem tsizeL_dir_mem (n : String) (cs2 : List FSTree) :
    ∀ cs, FSTree.dir n cs2 ∈ cs → tsizeL cs2 < tsizeL cs := by
  intro cs
  induction cs with
  | nil => intro h; cases h
  | cons t rest ih =>
    intro h
    rw [tsizeL]
    rcases List.mem_cons.mp h with heq | h2
    · rw [← heq, tsize]
      omega
    · have := ih h2
      have ht : 0 < tsize t := by
        cases t with
        | file a b => rw [tsize]; omega
        | dir a b => rw [tsize]; omega
      omega

theorem walkSub_congr
    (w1 w2 : List String → List FSTree → ScanData → Except PyErr ScanData)
    (keep : List String → Bool) (rel : List String) :
    ∀ cs d, (∀ n cs2, FSTree.dir n cs2 ∈ cs →
        ∀ d2, w1 (rel ++ [n]) cs2 d2 = w2 (rel ++ [n]) cs2 d2) →
      walkSub w1 keep rel cs d = walkSub w2 keep rel cs d := by
  intro cs
  induction cs with
  | nil => intro d _; rw [walkSub, walkSub]
  | cons t rest ih =>
    intro d hall
    cases t with
    | file n c =>
      rw [walkSub, walkSub]
      exact ih d (fun n2 cs2 hm => hall n2 cs2 (List.mem_cons_of_mem _ hm))
    | dir n cs2 =>
      rw [walkSub, walkSub]
      split
      · rw [hall n cs2 (List.mem_cons_self _ _) d]
        cases h3 : w2 (rel ++ [n]) cs2 d with
        | error e => rfl
        | ok d3 => exact ih d3 (fun n2 c2 hm => hall n2 c2 (List.mem_cons_of_mem _ hm))
      · exact ih d (fun n2 c2 hm => hall n2 c2 (List.mem_cons_of_mem _ hm))

theorem walkRoot_fuel_irrel (cat : List (String × List Matcher))
    (pats rootParts : List String) (rootStr : String) :
    ∀ f1 f2 rel cs d, tsizeL cs < f1 → tsizeL cs < f2 →
      walkRoot cat pats rootParts rootStr f1 rel cs d =
        walkRoot cat pats rootParts rootStr f2 rel cs d := by
  intro f1
  induction f1 with
  | zero => intro f2 rel cs d h1 _; exact absurd h1 (Nat.not_lt_zero _)
  | succ f1 ih =>
    intro f2 rel cs d h1 h2
    cases f2 with
    | zero => exact absurd h2 (Nat.not_lt_zero _)
    | succ f2 =>
      have hcong : ∀ (keep : List String → Bool) (d0 : ScanData),
          walkSub (walkRoot cat pats rootParts rootStr f1) keep rel cs d0 =
            walkSub (walkRoot cat pats rootParts rootStr f2) keep rel cs d0 := by
        intro keep d0
        refine walkSub_congr _ _ keep rel cs d0 (fun n cs2 hm d2 => ?_)
        have hsz := tsizeL_dir_mem n cs2 cs hm
        exact ih f2 (rel ++ [n]) cs2 d2 (by omega) (by omega)
      rw [walkRoot]
      conv_rhs => rw [walkRoot]
      by_cases hig : shouldIgnorePath pats rootParts rel = true
      · rw [if_pos hig, if_pos hig]
        exact hcong _ d
      · rw [if_neg hig, if_neg hig]
        cases h3 : foldFiles (processFile cat pats rootParts rootStr rel) (fsFiles cs)
            (if rel.isEmpty then d
             else { d with directories := d.directories ++ [joinPath rel] }) with
        | error e => rfl
        | ok d2 => exact hcong _ d2

theorem tsizeL_append : ∀ l1 l2 : List FSTree,
    tsizeL (l1 ++ l2) = tsizeL l1 + tsizeL l2 := by
  intro l1
  induction l1 with
  | nil => intro l2; rw [List.nil_append, tsizeL]; omega
  | cons t rest ih => intro l2; rw [List.cons_append, tsizeL, tsizeL, ih]; omega

/-- Claim C3: a directory whose name equals an ignore rule contributes
nothing to the scan: walking its subtree leaves the accumulator untouched
for every fuel and position (the traversal never processes anything in it),
removing the directory from the tree leaves every walk result unchanged, and
the complete scan output over the tree with the directory equals the scan
output over the tree without it, so no file below it reaches any record,
histogram, indicator or total. -/
theorem ignored_dir_contributes_nothing (cat : List (String × List Matcher))
    (pats rootParts : List String) (rootStr : String) (s : String)
    (kids pre post : List FSTree) (hs : s ∈ pats) :
    (∀ f rel d, walkRoot cat pats rootParts rootStr f (rel ++ [s]) kids d = .ok d) ∧
      (∀ f rel pre2 post2 d,
        walkRoot cat pats rootParts rootStr f rel
            (pre2 ++ FSTree.dir s kids :: post2) d =
          walkRoot cat pats rootParts rootStr f rel (pre2 ++ post2) d) ∧
      singlePassScan cat pats rootParts rootStr (pre ++ FSTree.dir s kids :: post) =
        singlePassScan cat pats rootParts rootStr (pre ++ post) := by
  refine ⟨?_, ?_, ?_⟩
  · intro f rel d
    exact walkRoot_noop cat pats rootParts rootStr s hs f (rel ++ [s]) kids d
      (List.mem_append_right _ (List.mem_singleton_self s))
  · intro f rel pre2 post2 d
    exact walkRoot_remove cat pats rootParts rootStr s hs kids f rel pre2 post2 d
  · rw [singlePassScan, singlePassScan,
      walkRoot_remove cat pats rootParts rootStr s hs kids
        (tsizeL (pre ++ FSTree.dir s kids :: post) + 1) [] pre post initScanData,
      walkRoot_fuel_irrel cat pats rootParts rootStr
        (tsizeL (pre ++ FSTree.dir s kids :: post) + 1) (tsizeL (pre ++ post) + 1)
        [] (pre ++ post) initScanData ?_ ?_]
    · rw [tsizeL_append, tsizeL_append, tsizeL, tsize]
      omega
    · omega

/-- Witness for C3: a node_modules directory holding a python file with a
declaration leaves the scan output identical to the scan without it. -/
theorem ignored_dir_contributes_nothing_witness :
    singlePassScan theCatalog defaultIgnores ["/", "proj"] "/proj"
        ([FSTree.file "a.py" (some "def foo():")] ++
          FSTree.dir "node_modules" [FSTree.file "m.py" (some "def hidden():")] ::
            ([] : List FSTree)) =
      singlePassScan theCatalog defaultIgnores ["/", "proj"] "/proj"
        ([FSTree.file "a.py" (some "def foo():")] ++ ([] : List FSTree)) :=
  (ignored_dir_contributes_nothing theCatalog defaultIgnores ["/", "proj"] "/proj"
    "node_modules" [FSTree.file "m.py" (some "def hidden():")]
    [FSTree.file "a.py" (some "def foo():")] [] (by decide)).2.2

/-! ## Oversized files -/

theorem hasBreadcrumb_of_no_marker (lines : List String) (i : Nat)
    (h : ∀ l ∈ lines, lineHasMarker l = false) : hasBreadcrumb lines i = false := by
  rw [hasBreadcrumb, List.any_eq_false]
  intro j hj
  have hb := windowIdx_bounds lines.length i j hj
  rw [List.getD_eq_getElem lines "" hb.1]
  simp [h _ (List.getElem_mem hb.1)]

theorem pyLine_no_marker : lineHasMarker pyLine = false := by decide

theorem pyFindall1 : reFindall pyDefRE pyLine = [MatchItem.one "foo"] := by decide

theorem pyFindall2 : reFindall pyAsyncDefRE pyLine = [] := by decide

theorem pyFindall3 : reFindall pyClassRE pyLine = [] := by decide

theorem runPats_pyLine (lines : List String) (i : Nat)
    (hb : hasBreadcrumb lines i = false) (st : FnAcc) :
    runPats lines i pyLine pythonPatterns st =
      .ok ⟨st.functions ++ ["foo"], st.documented, st.missing ++ ["foo"]⟩ := by
  have hnb : ¬hasBreadcrumb lines i = true := by simp [hb]
  show (match procMatches lines i (reFindall pyDefRE pyLine) st with
    | Except.error e => Except.error e
    | Except.ok st2 =>
      runPats lines i pyLine [matcherOf pyAsyncDefRE, matcherOf pyClassRE] st2) = _
  rw [pyFindall1]
  show (match (if ("foo" != "" && !(strStartsWith "foo" "_")) = true then
        (if hasBreadcrumb lines i = true then
          procMatches lines i []
            ⟨st.functions ++ ["foo"], st.documented ++ ["foo"], st.missing⟩
        else procMatches lines i []
            ⟨st.functions ++ ["foo"], st.documented, st.missing ++ ["foo"]⟩)
      else procMatches lines i [] st) with
    | Except.error e => Except.error e
    | Except.ok st2 =>
      runPats lines i pyLine [matcherOf pyAsyncDefRE, matcherOf pyClassRE] st2) = _
  rw [if_pos (by decide : ("foo" != "" && !(strStartsWith "foo" "_")) = true), if_neg hnb]
  show (match procMatches lines i (reFindall pyAsyncDefRE pyLine)
      ⟨st.functions ++ ["foo"], st.documented, st.missing ++ ["foo"]⟩ with
    | Except.error e => Except.error e
    | Except.ok st2 => runPats lines i pyLine [matcherOf pyClassRE] st2) = _
  rw [pyFindall2]
  show (match procMatches lines i (reFindall pyClassRE pyLine)
      ⟨st.functions ++ ["foo"], st.documented, st.missing ++ ["foo"]⟩ with
    | Except.error e => Except.error e
    | Except.ok st2 => runPats lines i pyLine [] st2) = _
  rw [pyFindall3]
  rfl

theorem runLines_pyLines (lines : List String)
    (hnm : ∀ l ∈ lines, lineHasMarker l = false) :
    ∀ (L : List (Nat × String)) (st : FnAcc), (∀ p ∈ L, p.2 = pyLine) →
      runLines pythonPatterns lines L st =
        .ok ⟨st.functions ++ List.replicate L.length "foo", st.documented,
          st.missing ++ List.replicate L.length "foo"⟩ := by
  intro L
  induction L with
  | nil =>
    intro st _
    rw [runLines]
    simp [List.replicate]
  | cons q rest ih =>
    intro st hall
    obtain ⟨i, line⟩ := q
    have hline : line = pyLine := hall (i, line) (List.mem_cons_self _ _)
    subst hline
    rw [runLines, runPats_pyLine lines i (hasBreadcrumb_of_no_marker lines i hnm) st]
    show runLines pythonPatterns lines rest
        ⟨st.functions ++ ["foo"], st.documented, st.missing ++ ["foo"]⟩ = _
    rw [ih _ (fun p hp => hall p (List.mem_cons_of_mem _ hp))]
    rw [List.length_cons, List.append_assoc, List.append_assoc]
    rw [show (["foo"] : List String) ++ List.replicate rest.length "foo" =
      List.replicate (rest.length + 1) "foo" by
        rw [List.replicate_succ, List.singleton_append]]

theorem enum_replicate_snd (n : Nat) :
    ∀ p ∈ (List.replicate n pyLine).enum, p.2 = pyLine := by
  intro p hp
  obtain ⟨i, x⟩ := p
  obtain ⟨_, hlt, hx⟩ := List.mem_enumFrom hp
  show x = pyLine
  rw [hx]
  simp [List.getElem_replicate]

theorem analyzeAllLines_replicate (n : Nat) :
    analyzeAllLines pythonPatterns (List.replicate n pyLine) =
      .ok ⟨List.replicate n "foo", [], List.replicate n "foo"⟩ := by
  rw [analyzeAllLines,
    runLines_pyLines (List.replicate n pyLine)
      (fun l hl => by rw [List.eq_of_mem_replicate hl]; exact pyLine_no_marker)
      _ _ (enum_replicate_snd n)]
  simp [List.enum_length]

theorem fileSizeBytes_replicate (n : Nat) :
    fileSizeBytes (List.replicate n pyLine) = n * 10 + (n - 1) := by
  rw [fileSizeBytes, List.map_replicate, List.length_replicate,
    show pyLine.length = 10 from rfl, List.sum_replicate, smul_eq_mul]

/-- Claim C5 (amended): the analyzer has no size threshold: a file whose
byte size exceeds ten million is analyzed exactly like any other file, and a
declaration-per-line file of that size contributes one declaration per line,
not zero. -/
theorem oversized_file_analyzed (n : Nat)
    (h : 10000000 < fileSizeBytes (List.replicate n pyLine)) :
    analyzeAllLines pythonPatterns (List.replicate n pyLine) =
        .ok ⟨List.replicate n "foo", [], List.replicate n "foo"⟩ ∧
      (List.replicate n "foo").length = n ∧ 0 < n := by
  refine ⟨analyzeAllLines_replicate n, by simp, ?_⟩
  rw [fileSizeBytes_replicate] at h
  omega

/-- Witness for C5 (amended), at an eleven-megabyte input. -/
theorem oversized_file_analyzed_witness :
    0 < 1000001 ∧
      analyzeAllLines pythonPatterns (List.replicate 1000001 pyLine) =
        .ok ⟨List.replicate 1000001 "foo", [], List.replicate 1000001 "foo"⟩ := by
  obtain ⟨h1, _, h3⟩ := oversized_file_analyzed 1000001
    (by rw [fileSizeBytes_replicate]; norm_num)
  exact ⟨h3, h1⟩

/-- Counterexample for C5 as stated: an eleven-megabyte python file is not
skipped: its analysis runs and detects one declaration per line, one million
and one in total, instead of the zero declarations the claim requires for a
file above the threshold. -/
theorem oversized_file_counterexample :
    10000000 < fileSizeBytes (List.replicate 1000001 pyLine) ∧
      analyzeAllLines pythonPatterns (List.replicate 1000001 pyLine) =
        .ok ⟨List.replicate 1000001 "foo", [], List.replicate 1000001 "foo"⟩ ∧
      (List.replicate 1000001 "foo").length = 1000001 ∧ (1000001 : Nat) ≠ 0 :=
  ⟨by rw [fileSizeBytes_replicate]; norm_num, analyzeAllLines_replicate 1000001,
    by rw [List.length_replicate], by norm_num⟩

/-- Counterexample for C9 as stated: the source opens files with the ignore
error handler, so invalid bytes are dropped, not replaced: on the byte
sequence 61 FF 62 the code reads the two-character text ab, while the
replace handler the claim describes would read a three-character text with a
replacement character. -/
theorem decode_ignore_not_replace :
    pyDecode DecMode.ignore [97, 255, 98] = .ok "ab" ∧
      pyDecode DecMode.replace [97, 255, 98] = .ok "a�b" ∧
      ("ab" : String) ≠ "a�b" :=
  ⟨by decide, by decide, by decide⟩

end Arkival
